import Mathlib

/-!
# ratio-spoof: the announce session engine

A shallow embedding of `internal/ratiospoof/ratiospoof.go`.

Modelling conventions.

* Go `int` is read in two ways.  The definitions named as in the source take it
  as the mathematical integers (`Int`); they carry the statements that say
  integers are taken as unbounded, and those in which no arithmetic can wrap.
  The definitions whose name ends in `64` follow the 64-bit machine: every
  arithmetic result is reduced to the range `[-2^63, 2^63)` by `wrapInt64`.
  The two agree whenever no result leaves that range
  (`calculateNextTotalSizeByte64_of_fits`); the statements about the value and
  the growth of the candidates are made on the `64` definitions, with the range
  conditions they need.
* The anonymous struct pushed on the history is the structure `Announce`.  Its
  `PercentDownloaded` field is a `float32` used for display only; it is not
  carried, and nothing in the session logic reads it.
* `deque.Deque` (github.com/gammazero/deque) is a list, front first:
  `PushBack` appends, `PopFront` drops the head, `Back` reads the last element
  and panics on an empty deque.
* The process-wide `math/rand` source is an explicit generator `Rand` that is
  threaded through every function that draws from it.
* The emulated client and the tracker transport live in other packages.  The
  client contributes its `Round` function, the tracker an arbitrary sequence of
  answers; the query string is represented by the values substituted into it.
* A Go panic and `log.Fatalf` are the two `Failure` outcomes.
* A run of the session is `firstAnnounce` followed by a list of `Step`s, each a
  call of `generateNextAnnounce`, `fireAnnounce` or `gracefullyExit`; this
  covers every order in which the timer loop and the shutdown can interleave.
-/

namespace Ratiospoof

/-- Capacity of the announce history (`maxAnnounceHistory`). -/
def maxAnnounceHistory : Nat := 10

/-- One entry of the announce history (the anonymous struct of the source,
without its display-only `PercentDownloaded`). -/
structure Announce where
  Count : Int
  Downloaded : Int
  Uploaded : Int
  Left : Int
deriving DecidableEq, Repr

/-- The type `announceHistory`: a deque of entries, oldest first. -/
abbrev announceHistory := List Announce

/-- Number of stored entries (`Deque.Len`). -/
def announceHistory.Len (a : announceHistory) : Nat := a.length

/-- Remove the oldest entry (`Deque.PopFront`); only called on a non-empty deque. -/
def announceHistory.PopFront (a : announceHistory) : announceHistory := a.tail

/-- Append an entry at the back (`Deque.PushBack`). -/
def announceHistory.PushBack (a : announceHistory) (value : Announce) : announceHistory :=
  a ++ [value]

/-- Most recent entry (`Deque.Back`); `none` stands for the panic on an empty deque. -/
def announceHistory.Back (a : announceHistory) : Option Announce := a.getLast?

/-- Method `pushValueHistory`: evict the oldest entry when full, then append. -/
def announceHistory.pushValueHistory (a : announceHistory) (value : Announce) : announceHistory :=
  if a.Len ≥ maxAnnounceHistory then (a.PopFront).PushBack value else a.PushBack value

/-- The random source: an arbitrary stream of raw draws and a read position. -/
structure Rand where
  draws : Nat → Nat
  pos : Nat

/-- Function `rand.Intn n`: a value in `[0, n)` taken from the next raw draw;
the generator advances by one. -/
def Rand.Intn (g : Rand) (n : Nat) : Int × Rand :=
  (((g.draws g.pos % n : Nat) : Int), { g with pos := g.pos + 1 })

/-- The value of `randomPieces` that `calculateNextTotalSizeByte` computes when
it draws from `g`: `rand.Intn(10-1) + 1`. -/
def randomPieces (g : Rand) : Int := (g.Intn (10 - 1)).1 + 1

/-- Function `calculateNextTotalSizeByte`, returning the result and the generator
left behind. -/
def calculateNextTotalSizeByte (g : Rand)
    (speedBytePerSecond currentByte pieceSizeByte seconds limitTotalBytes : Int) : Int × Rand :=
  if speedBytePerSecond = 0 then
    (currentByte, g)
  else
    let totalCandidate := currentByte + (speedBytePerSecond * seconds)
    let randomPieces := (g.Intn (10 - 1)).1 + 1
    let totalCandidate := totalCandidate + (pieceSizeByte * randomPieces)
    if limitTotalBytes ≠ 0 ∧ totalCandidate > limitTotalBytes then
      (limitTotalBytes, (g.Intn (10 - 1)).2)
    else
      (totalCandidate, (g.Intn (10 - 1)).2)

/-- Function `calculateBytesLeft`. -/
def calculateBytesLeft (currentBytes totalBytes : Int) : Int := totalBytes - currentBytes

/-- The fields of `bencode.TorrentInfo` the session reads. -/
structure TorrentInfo where
  TotalSize : Int
  PieceSize : Int

/-- The fields of `input.InputParsed` the session reads. -/
structure InputParsed where
  InitialDownloaded : Int
  InitialUploaded : Int
  DownloadSpeed : Int
  UploadSpeed : Int
  Port : Int

/-- The emulated client (`emulation.Emulation`): its reconciliation function. -/
structure Emulation where
  Round : Int → Int → Int → Int → Int × Int × Int

/-- A decoded tracker answer (`tracker.TrackerResponse`). -/
structure TrackerResponse where
  Interval : Int
  Seeders : Int
  Leechers : Int
deriving DecidableEq, Repr

/-- The values `fireAnnounce` substitutes into the query template, with the
retry flag passed to the transport. -/
structure AnnounceQuery where
  port : Int
  uploaded : Int
  downloaded : Int
  left : Int
  event : String
  numwant : Int
  retry : Bool
deriving DecidableEq, Repr

/-- What `Tracker.Announce` hands back: an error, or a possibly nil response. -/
inductive TrackerResult where
  | err
  | resp (trackerResp : Option TrackerResponse)
deriving DecidableEq, Repr

/-- The tracker transport (`tracker.HttpTracker`): the answer it gives to its
n-th call, and the queries it has been sent so far (oldest first). -/
structure HttpTracker where
  answers : Nat → TrackerResult
  sent : List AnnounceQuery

/-- Method `Tracker.Announce`: record the query and give the next answer. -/
def HttpTracker.Announce (t : HttpTracker) (query : AnnounceQuery) : TrackerResult × HttpTracker :=
  (t.answers t.sent.length, { t with sent := t.sent ++ [query] })

/-- The session state (`RatioSpoof`). -/
structure RatioSpoof where
  TorrentInfo : TorrentInfo
  Input : InputParsed
  Tracker : HttpTracker
  BitTorrentClient : Emulation
  AnnounceInterval : Int
  NumWant : Int
  Seeders : Int
  Leechers : Int
  AnnounceCount : Int
  Status : String
  AnnounceHistory : announceHistory

/-- Abnormal termination: a panic from `Back` on an empty history, or
`log.Fatalf` after a transport error. -/
inductive Failure where
  | emptyHistoryPanic
  | trackerFatal
deriving DecidableEq, Repr

/-- The value `NewRatioSpoofState` returns once the torrent, client, tracker and
input have been built: every field not listed in the literal is zero. -/
def NewRatioSpoofState (client : Emulation) (torrentInfo : TorrentInfo)
    (httpTracker : HttpTracker) (inputParsed : InputParsed) : RatioSpoof :=
  { BitTorrentClient := client
    TorrentInfo := torrentInfo
    Tracker := httpTracker
    Input := inputParsed
    NumWant := 200
    Status := "started"
    AnnounceInterval := 0
    Seeders := 0
    Leechers := 0
    AnnounceCount := 0
    AnnounceHistory := [] }

/-- Method `updateSeedersAndLeechers`. -/
def updateSeedersAndLeechers (r : RatioSpoof) (resp : TrackerResponse) : RatioSpoof :=
  { r with Seeders := resp.Seeders, Leechers := resp.Leechers }

/-- Method `addAnnounce`: bump the counter and push the new entry. -/
def addAnnounce (r : RatioSpoof) (currentDownloaded currentUploaded currentLeft : Int) :
    RatioSpoof :=
  let count := r.AnnounceCount + 1
  { r with
    AnnounceCount := count
    AnnounceHistory := r.AnnounceHistory.pushValueHistory
      { Count := count
        Downloaded := currentDownloaded
        Uploaded := currentUploaded
        Left := currentLeft } }

/-- Method `fireAnnounce`: the new state and the returned Go error (always nil). -/
def fireAnnounce (r : RatioSpoof) (retry : Bool) : Except Failure (RatioSpoof × Option String) :=
  match r.AnnounceHistory.Back with
  | none => .error .emptyHistoryPanic
  | some lastAnnounce =>
    let query : AnnounceQuery :=
      { port := r.Input.Port
        uploaded := lastAnnounce.Uploaded
        downloaded := lastAnnounce.Downloaded
        left := lastAnnounce.Left
        event := r.Status
        numwant := r.NumWant
        retry := retry }
    let r1 : RatioSpoof := { r with Tracker := (r.Tracker.Announce query).2 }
    match (r.Tracker.Announce query).1 with
    | .err => .error .trackerFatal
    | .resp none => .ok (r1, none)
    | .resp (some trackerResp) =>
      .ok ({ updateSeedersAndLeechers r1 trackerResp with
              AnnounceInterval := trackerResp.Interval }, none)

/-- Method `gracefullyExit`. -/
def gracefullyExit (r : RatioSpoof) : Except Failure RatioSpoof :=
  match fireAnnounce { r with Status := "stopped", NumWant := 0 } false with
  | .error e => .error e
  | .ok (r1, _) => .ok r1

/-- Method `firstAnnounce`. -/
def firstAnnounce (r : RatioSpoof) : Except Failure RatioSpoof :=
  match fireAnnounce
      (addAnnounce r r.Input.InitialDownloaded r.Input.InitialUploaded
        (calculateBytesLeft r.Input.InitialDownloaded r.TorrentInfo.TotalSize)) false with
  | .error e => .error e
  | .ok (r1, _) => .ok r1

/-- The value of `downloadCandidate` in `generateNextAnnounce` (source lines
182-189), with the generator left behind. -/
def downloadCandidate (r : RatioSpoof) (lastAnnounce : Announce) (g : Rand) : Int × Rand :=
  let currentDownloaded := lastAnnounce.Downloaded
  if currentDownloaded < r.TorrentInfo.TotalSize then
    calculateNextTotalSizeByte g r.Input.DownloadSpeed currentDownloaded r.TorrentInfo.PieceSize
      r.AnnounceInterval r.TorrentInfo.TotalSize
  else
    (r.TorrentInfo.TotalSize, g)

/-- The value of `uploadCandidate` in `generateNextAnnounce` (source lines
191-192), with the generator left behind. -/
def uploadCandidate (r : RatioSpoof) (lastAnnounce : Announce) (g : Rand) : Int × Rand :=
  let currentUploaded := lastAnnounce.Uploaded
  calculateNextTotalSizeByte g r.Input.UploadSpeed currentUploaded r.TorrentInfo.PieceSize
    r.AnnounceInterval 0

/-- Method `generateNextAnnounce`. -/
def generateNextAnnounce (r : RatioSpoof) (g : Rand) : Except Failure (RatioSpoof × Rand) :=
  match r.AnnounceHistory.Back with
  | none => .error .emptyHistoryPanic
  | some lastAnnounce =>
    let dc := downloadCandidate r lastAnnounce g
    let uc := uploadCandidate r lastAnnounce dc.2
    let leftCandidate := calculateBytesLeft dc.1 r.TorrentInfo.TotalSize
    let dul := r.BitTorrentClient.Round dc.1 uc.1 leftCandidate r.TorrentInfo.PieceSize
    .ok (addAnnounce r dul.1 dul.2.1 dul.2.2, uc.2)

/-- A finite sequence of `generateNextAnnounce` calls, one after the other. -/
def generateNextAnnounceTimes : Nat → RatioSpoof → Rand → Except Failure (RatioSpoof × Rand)
  | 0, r, g => .ok (r, g)
  | n + 1, r, g =>
    match generateNextAnnounce r g with
    | .error e => .error e
    | .ok (r1, g1) => generateNextAnnounceTimes n r1 g1

/-- Pushing a list of entries on a history, first entry first. -/
def pushAll (a : announceHistory) (values : List Announce) : announceHistory :=
  values.foldl announceHistory.pushValueHistory a

/-- The entry numbered `i`, with zero byte counts. -/
def numbered (i : Nat) : Announce :=
  { Count := i, Downloaded := 0, Uploaded := 0, Left := 0 }

/-- The reconciliation function that returns its arguments unchanged. -/
def roundUnchanged : Int → Int → Int → Int → Int × Int × Int :=
  fun d u l _ => (d, u, l)

/-- The emulated client whose `Round` returns its arguments unchanged. -/
def plainClient : Emulation := { Round := roundUnchanged }

/-- A tracker that answers every call with interval 1800, 5 seeders, 3 leechers. -/
def steadyTracker : HttpTracker :=
  { answers := fun _ => .resp (some { Interval := 1800, Seeders := 5, Leechers := 3 })
    sent := [] }

/-- A running session: total size 1000, piece size 10, download speed 100,
upload speed 50, interval 10, one entry with nothing downloaded yet. -/
def sampleSession : RatioSpoof :=
  { TorrentInfo := { TotalSize := 1000, PieceSize := 10 }
    Input := { InitialDownloaded := 0, InitialUploaded := 0, DownloadSpeed := 100,
               UploadSpeed := 50, Port := 8999 }
    Tracker := steadyTracker
    BitTorrentClient := plainClient
    AnnounceInterval := 10
    NumWant := 200
    Seeders := 0
    Leechers := 0
    AnnounceCount := 1
    Status := "started"
    AnnounceHistory := [{ Count := 1, Downloaded := 0, Uploaded := 0, Left := 1000 }] }

/-- The sample session with the download paused at 400 bytes. -/
def pausedSession : RatioSpoof :=
  { sampleSession with
    Input := { InitialDownloaded := 400, InitialUploaded := 0, DownloadSpeed := 0,
               UploadSpeed := 50, Port := 8999 }
    AnnounceHistory := [{ Count := 1, Downloaded := 400, Uploaded := 0, Left := 600 }] }

/-- The sample session with the download complete. -/
def completeSession : RatioSpoof :=
  { sampleSession with
    AnnounceHistory := [{ Count := 1, Downloaded := 1000, Uploaded := 70, Left := 0 }] }

/-- A session whose last entry reports 150 bytes downloaded of a 100-byte
torrent, with the download speed set to 0. -/
def overfullPaused : RatioSpoof :=
  { sampleSession with
    TorrentInfo := { TotalSize := 100, PieceSize := 10 }
    Input := { InitialDownloaded := 150, InitialUploaded := 0, DownloadSpeed := 0,
               UploadSpeed := 0, Port := 8999 }
    AnnounceHistory := [{ Count := 1, Downloaded := 150, Uploaded := 0, Left := -50 }] }

/-- A session whose last entry reports 150 bytes downloaded of a 100-byte
torrent, with download speed 100. -/
def overfullDownloading : RatioSpoof :=
  { sampleSession with
    TorrentInfo := { TotalSize := 100, PieceSize := 10 }
    Input := { InitialDownloaded := 150, InitialUploaded := 0, DownloadSpeed := 100,
               UploadSpeed := 0, Port := 8999 }
    AnnounceHistory := [{ Count := 1, Downloaded := 150, Uploaded := 0, Left := -50 }] }

/-- A generator whose raw draws are all 4, so that every jitter is 5. -/
def fixedRand : Rand := { draws := fun _ => 4, pos := 0 }

/-- Two session states agree on everything `generateNextAnnounce` reads apart
from the history and the counter. -/
def sameSetting (r r1 : RatioSpoof) : Prop :=
  r1.TorrentInfo = r.TorrentInfo ∧ r1.Input = r.Input ∧
  r1.BitTorrentClient = r.BitTorrentClient ∧ r1.AnnounceInterval = r.AnnounceInterval

/-- The sequence numbers `first, first+1, ...` (`len` of them) as Go integers. -/
def consecutiveCounts (first len : Nat) : List Int :=
  (List.range' first len).map Int.ofNat

/-- The sequence numbers a history holds once `c` entries have been appended:
the last `min c 10` of `1..c`. -/
def retainedCounts (c : Nat) : List Int :=
  consecutiveCounts (c + 1 - min c maxAnnounceHistory) (min c maxAnnounceHistory)

/-- One action on the session after the first announce: a call of
`generateNextAnnounce` (with the state of the random source at that moment), of
`fireAnnounce`, or of `gracefullyExit`. -/
inductive Step where
  | generateNextAnnounce (g : Rand)
  | fireAnnounce (retry : Bool)
  | gracefullyExit

/-- Whether the action is the shutdown call. -/
def Step.isGracefullyExit : Step → Bool
  | .gracefullyExit => true
  | _ => false

/-- Perform one action on the session. -/
def applyStep (r : RatioSpoof) : Step → Except Failure RatioSpoof
  | .generateNextAnnounce g =>
    match generateNextAnnounce r g with
    | .error e => .error e
    | .ok (r1, _) => .ok r1
  | .fireAnnounce retry =>
    match fireAnnounce r retry with
    | .error e => .error e
    | .ok (r1, _) => .ok r1
  | .gracefullyExit => gracefullyExit r

/-- Perform a list of actions, first one first, stopping at the first failure. -/
def applySteps (r : RatioSpoof) : List Step → Except Failure RatioSpoof
  | [] => .ok r
  | s :: rest =>
    match applyStep r s with
    | .error e => .error e
    | .ok r1 => applySteps r1 rest

/-- A run of the session: `firstAnnounce`, then the given actions. -/
def session (r0 : RatioSpoof) (steps : List Step) : Except Failure RatioSpoof :=
  match firstAnnounce r0 with
  | .error e => .error e
  | .ok r1 => applySteps r1 steps

/-- A freshly constructed session for a 1000-byte torrent with piece size 10,
download speed 100 and upload speed 50, talking to the steady tracker. -/
def freshSession : RatioSpoof :=
  NewRatioSpoofState plainClient { TotalSize := 1000, PieceSize := 10 } steadyTracker
    { InitialDownloaded := 0, InitialUploaded := 0, DownloadSpeed := 100,
      UploadSpeed := 50, Port := 8999 }

/-- A tracker whose every answer is a nil response without error. -/
def silentTracker : HttpTracker :=
  { answers := fun _ => .resp none
    sent := [] }

/-- The session of the clamp scenario before its first announce: total size
1000, piece size 10, nothing downloaded or uploaded, download speed 100, upload
speed 0, and a tracker that answers with interval 10. -/
def scenarioSession : RatioSpoof :=
  NewRatioSpoofState plainClient { TotalSize := 1000, PieceSize := 10 }
    { answers := fun _ => .resp (some { Interval := 10, Seeders := 5, Leechers := 3 })
      sent := [] }
    { InitialDownloaded := 0, InitialUploaded := 0, DownloadSpeed := 100,
      UploadSpeed := 0, Port := 8999 }

/-- The sample session talking to the silent tracker. -/
def silentSession : RatioSpoof := { sampleSession with Tracker := silentTracker }

/-- Twelve periodic rounds (`generateNextAnnounce`, then `fireAnnounce` with
retry on), every jitter being 5. -/
def periodicRun : List Step :=
  (List.replicate 12 [Step.generateNextAnnounce fixedRand, Step.fireAnnounce true]).flatten

/-- Twelve periodic rounds followed by the shutdown. -/
def fullRun : List Step := periodicRun ++ [Step.gracefullyExit]

/-- Go `int` on a 64-bit platform ranges over `[-int64Bound, int64Bound)`,
with `int64Bound = 2^63`. -/
def int64Bound : Int := 9223372036854775808

/-- The integer is representable as a 64-bit Go `int`. -/
abbrev inInt64 (x : Int) : Prop := -int64Bound ≤ x ∧ x < int64Bound

/-- The 64-bit Go `int` that an arithmetic result wraps around to (two's
complement). -/
def wrapInt64 (x : Int) : Int := (x + int64Bound) % (2 * int64Bound) - int64Bound

/-- The value of `totalCandidate` at source line 207, in 64-bit arithmetic:
`currentByte + speedBytePerSecond*seconds`, then plus
`pieceSizeByte*randomPieces`, each product and sum wrapping around. -/
def totalCandidate64 (speedBytePerSecond currentByte pieceSizeByte seconds randomPieces : Int) :
    Int :=
  wrapInt64 (wrapInt64 (currentByte + wrapInt64 (speedBytePerSecond * seconds))
    + wrapInt64 (pieceSizeByte * randomPieces))

/-- No product or sum in `currentByte + speedBytePerSecond*seconds +
pieceSizeByte*randomPieces` leaves the 64-bit range. -/
abbrev candidateFits (speedBytePerSecond currentByte pieceSizeByte seconds randomPieces : Int) :
    Prop :=
  inInt64 (speedBytePerSecond * seconds) ∧
  inInt64 (currentByte + speedBytePerSecond * seconds) ∧
  inInt64 (pieceSizeByte * randomPieces) ∧
  inInt64 (currentByte + speedBytePerSecond * seconds + pieceSizeByte * randomPieces)

/-- Function `calculateNextTotalSizeByte` in 64-bit arithmetic, returning the
result and the generator left behind. -/
def calculateNextTotalSizeByte64 (g : Rand)
    (speedBytePerSecond currentByte pieceSizeByte seconds limitTotalBytes : Int) : Int × Rand :=
  if speedBytePerSecond = 0 then
    (currentByte, g)
  else
    let totalCandidate := wrapInt64 (currentByte + wrapInt64 (speedBytePerSecond * seconds))
    let randomPieces := (g.Intn (10 - 1)).1 + 1
    let totalCandidate := wrapInt64 (totalCandidate + wrapInt64 (pieceSizeByte * randomPieces))
    if limitTotalBytes ≠ 0 ∧ totalCandidate > limitTotalBytes then
      (limitTotalBytes, (g.Intn (10 - 1)).2)
    else
      (totalCandidate, (g.Intn (10 - 1)).2)

/-- Function `calculateBytesLeft` in 64-bit arithmetic. -/
def calculateBytesLeft64 (currentBytes totalBytes : Int) : Int :=
  wrapInt64 (totalBytes - currentBytes)

/-- Method `addAnnounce` in 64-bit arithmetic. -/
def addAnnounce64 (r : RatioSpoof) (currentDownloaded currentUploaded currentLeft : Int) :
    RatioSpoof :=
  let count := wrapInt64 (r.AnnounceCount + 1)
  { r with
    AnnounceCount := count
    AnnounceHistory := r.AnnounceHistory.pushValueHistory
      { Count := count
        Downloaded := currentDownloaded
        Uploaded := currentUploaded
        Left := currentLeft } }

/-- The value of `downloadCandidate` in `generateNextAnnounce` (source lines
182-189) in 64-bit arithmetic, with the generator left behind. -/
def downloadCandidate64 (r : RatioSpoof) (lastAnnounce : Announce) (g : Rand) : Int × Rand :=
  let currentDownloaded := lastAnnounce.Downloaded
  if currentDownloaded < r.TorrentInfo.TotalSize then
    calculateNextTotalSizeByte64 g r.Input.DownloadSpeed currentDownloaded
      r.TorrentInfo.PieceSize r.AnnounceInterval r.TorrentInfo.TotalSize
  else
    (r.TorrentInfo.TotalSize, g)

/-- The value of `uploadCandidate` in `generateNextAnnounce` (source lines
191-192) in 64-bit arithmetic, with the generator left behind. -/
def uploadCandidate64 (r : RatioSpoof) (lastAnnounce : Announce) (g : Rand) : Int × Rand :=
  let currentUploaded := lastAnnounce.Uploaded
  calculateNextTotalSizeByte64 g r.Input.UploadSpeed currentUploaded r.TorrentInfo.PieceSize
    r.AnnounceInterval 0

/-- Method `generateNextAnnounce` in 64-bit arithmetic. -/
def generateNextAnnounce64 (r : RatioSpoof) (g : Rand) : Except Failure (RatioSpoof × Rand) :=
  match r.AnnounceHistory.Back with
  | none => .error .emptyHistoryPanic
  | some lastAnnounce =>
    let dc := downloadCandidate64 r lastAnnounce g
    let uc := uploadCandidate64 r lastAnnounce dc.2
    let leftCandidate := calculateBytesLeft64 dc.1 r.TorrentInfo.TotalSize
    let dul := r.BitTorrentClient.Round dc.1 uc.1 leftCandidate r.TorrentInfo.PieceSize
    .ok (addAnnounce64 r dul.1 dul.2.1 dul.2.2, uc.2)

/-- A finite sequence of `generateNextAnnounce64` calls, one after the other. -/
def generateNextAnnounceTimes64 : Nat → RatioSpoof → Rand → Except Failure (RatioSpoof × Rand)
  | 0, r, g => .ok (r, g)
  | n + 1, r, g =>
    match generateNextAnnounce64 r g with
    | .error e => .error e
    | .ok (r1, g1) => generateNextAnnounceTimes64 n r1 g1

/-- The completed sample session with upload speed 102400 after the tracker has
set the announce interval to `2^47` seconds. -/
def longIntervalSession : RatioSpoof :=
  { completeSession with
    Input := { InitialDownloaded := 0, InitialUploaded := 0, DownloadSpeed := 102400,
               UploadSpeed := 102400, Port := 8999 }
    AnnounceInterval := 140737488355328 }

/-- The sample session (nothing downloaded yet) with download speed 102400 after
the tracker has set the announce interval to `2^47` seconds. -/
def longIntervalDownloading : RatioSpoof :=
  { sampleSession with
    Input := { InitialDownloaded := 0, InitialUploaded := 0, DownloadSpeed := 102400,
               UploadSpeed := 0, Port := 8999 }
    AnnounceInterval := 140737488355328 }

/-! ## The random draw and the traffic model -/

theorem randomPieces_ge (g : Rand) : 1 ≤ randomPieces g := by
  unfold randomPieces Rand.Intn
  simp only
  omega

theorem randomPieces_le (g : Rand) : randomPieces g ≤ 9 := by
  unfold randomPieces Rand.Intn
  simp only
  omega

theorem randomPieces_attained (k : Int) (h1 : 1 ≤ k) (h9 : k ≤ 9) :
    ∃ g : Rand, randomPieces g = k := by
  refine ⟨⟨fun _ => (k - 1).toNat, 0⟩, ?_⟩
  unfold randomPieces Rand.Intn
  simp only
  omega

theorem calculateNextTotalSizeByte_zero (g : Rand) (currentByte pieceSizeByte seconds
    limitTotalBytes : Int) :
    calculateNextTotalSizeByte g 0 currentByte pieceSizeByte seconds limitTotalBytes
      = (currentByte, g) := by
  simp [calculateNextTotalSizeByte]

theorem calculateNextTotalSizeByte_fst (g : Rand) (speed current piece seconds limit : Int)
    (hs : speed ≠ 0) :
    (calculateNextTotalSizeByte g speed current piece seconds limit).1
      = if limit ≠ 0 ∧ current + speed * seconds + piece * randomPieces g > limit then limit
        else current + speed * seconds + piece * randomPieces g := by
  unfold calculateNextTotalSizeByte randomPieces
  simp only [hs, if_false]
  split_ifs <;> rfl

theorem calculateNextTotalSizeByte_snd (g : Rand) (speed current piece seconds limit : Int)
    (hs : speed ≠ 0) :
    (calculateNextTotalSizeByte g speed current piece seconds limit).2 = (g.Intn (10 - 1)).2 := by
  unfold calculateNextTotalSizeByte
  simp only [hs, if_false]
  split_ifs <;> rfl

/-! ## The bounded history -/

theorem Back_pushValueHistory (a : announceHistory) (value : Announce) :
    (a.pushValueHistory value).Back = some value := by
  unfold announceHistory.pushValueHistory announceHistory.PushBack announceHistory.Back
  split_ifs <;> simp

theorem pushValueHistory_drop (xs : List Announce) (value : Announce) :
    announceHistory.pushValueHistory (xs.drop (xs.length - maxAnnounceHistory)) value
      = (xs ++ [value]).drop ((xs ++ [value]).length - maxAnnounceHistory) := by
  unfold announceHistory.pushValueHistory announceHistory.PushBack announceHistory.PopFront
    announceHistory.Len maxAnnounceHistory
  by_cases h : 10 ≤ xs.length
  · have hlen : (List.drop (xs.length - 10) xs).length ≥ 10 := by
      rw [List.length_drop]; omega
    rw [if_pos hlen, List.tail_drop, List.length_append, List.length_singleton]
    have e : xs.length + 1 - 10 = xs.length - 10 + 1 := by omega
    rw [e, List.drop_append_of_le_length (by omega)]
  · have hlen : ¬ (List.drop (xs.length - 10) xs).length ≥ 10 := by
      rw [List.length_drop]; omega
    rw [if_neg hlen, List.length_append, List.length_singleton]
    have e1 : xs.length - 10 = 0 := by omega
    have e2 : xs.length + 1 - 10 = 0 := by omega
    rw [e1, e2]
    rfl

theorem pushAll_concat (a : announceHistory) (values : List Announce) (value : Announce) :
    pushAll a (values ++ [value]) = (pushAll a values).pushValueHistory value := by
  simp [pushAll, List.foldl_append]

theorem pushAll_nil_eq_drop (values : List Announce) :
    pushAll [] values = values.drop (values.length - maxAnnounceHistory) := by
  induction values using List.reverseRecOn with
  | nil => rfl
  | append_singleton xs x ih => rw [pushAll_concat, ih, pushValueHistory_drop]

/-! ## One step and many steps of `generateNextAnnounce` -/

theorem generateNextAnnounce_ok (r : RatioSpoof) (g : Rand) (last : Announce)
    (hlast : r.AnnounceHistory.Back = some last) :
    generateNextAnnounce r g =
      .ok (addAnnounce r
            (r.BitTorrentClient.Round (downloadCandidate r last g).1
              (uploadCandidate r last (downloadCandidate r last g).2).1
              (calculateBytesLeft (downloadCandidate r last g).1 r.TorrentInfo.TotalSize)
              r.TorrentInfo.PieceSize).1
            (r.BitTorrentClient.Round (downloadCandidate r last g).1
              (uploadCandidate r last (downloadCandidate r last g).2).1
              (calculateBytesLeft (downloadCandidate r last g).1 r.TorrentInfo.TotalSize)
              r.TorrentInfo.PieceSize).2.1
            (r.BitTorrentClient.Round (downloadCandidate r last g).1
              (uploadCandidate r last (downloadCandidate r last g).2).1
              (calculateBytesLeft (downloadCandidate r last g).1 r.TorrentInfo.TotalSize)
              r.TorrentInfo.PieceSize).2.2,
          (uploadCandidate r last (downloadCandidate r last g).2).2) := by
  simp only [generateNextAnnounce, hlast]

theorem generateNextAnnounce_plain (r : RatioSpoof) (g : Rand) (last : Announce)
    (hlast : r.AnnounceHistory.Back = some last)
    (hRound : ∀ d u l p, r.BitTorrentClient.Round d u l p = (d, u, l)) :
    generateNextAnnounce r g =
      .ok (addAnnounce r (downloadCandidate r last g).1
            (uploadCandidate r last (downloadCandidate r last g).2).1
            (r.TorrentInfo.TotalSize - (downloadCandidate r last g).1),
          (uploadCandidate r last (downloadCandidate r last g).2).2) := by
  rw [generateNextAnnounce_ok r g last hlast, hRound]
  rfl

theorem addAnnounce_Back (r : RatioSpoof) (d u l : Int) :
    (addAnnounce r d u l).AnnounceHistory.Back
      = some { Count := r.AnnounceCount + 1, Downloaded := d, Uploaded := u, Left := l } := by
  unfold addAnnounce
  exact Back_pushValueHistory _ _

theorem generateNextAnnounceTimes_succ (n : Nat) (r : RatioSpoof) (g : Rand) :
    generateNextAnnounceTimes (n + 1) r g =
      match generateNextAnnounceTimes n r g with
      | .error e => .error e
      | .ok (rn, gn) => generateNextAnnounce rn gn := by
  induction n generalizing r g with
  | zero =>
    simp only [generateNextAnnounceTimes]
    cases generateNextAnnounce r g <;> rfl
  | succ k ih =>
    rw [generateNextAnnounceTimes]
    cases h : generateNextAnnounce r g with
    | error e => simp only [generateNextAnnounceTimes, h]
    | ok p =>
      obtain ⟨r1, g1⟩ := p
      simp only [ih r1 g1]
      conv_rhs => rw [generateNextAnnounceTimes]
      simp only [h]

theorem generateNextAnnounceTimes_invariant (P : RatioSpoof → Prop)
    (step : ∀ r g, P r → ∃ r1 g1, generateNextAnnounce r g = .ok (r1, g1) ∧ P r1) :
    ∀ (n : Nat) (r : RatioSpoof) (g : Rand), P r →
      ∃ rn gn, generateNextAnnounceTimes n r g = .ok (rn, gn) ∧ P rn := by
  intro n
  induction n with
  | zero => intro r g h; exact ⟨r, g, rfl, h⟩
  | succ k ih =>
    intro r g h
    obtain ⟨r1, g1, e1, h1⟩ := step r g h
    obtain ⟨rn, gn, en, hn⟩ := ih r1 g1 h1
    refine ⟨rn, gn, ?_, hn⟩
    rw [generateNextAnnounceTimes, e1]
    exact en

theorem generateNextAnnounce_plain_step (r : RatioSpoof) (g : Rand) (last : Announce)
    (hlast : r.AnnounceHistory.Back = some last)
    (hRound : ∀ d u l p, r.BitTorrentClient.Round d u l p = (d, u, l)) :
    ∃ r1 g1 s, generateNextAnnounce r g = .ok (r1, g1) ∧ sameSetting r r1 ∧
      r1.AnnounceHistory = r.AnnounceHistory.pushValueHistory s ∧
      r1.AnnounceHistory.Back = some s ∧
      s.Downloaded = (downloadCandidate r last g).1 ∧
      s.Uploaded = (uploadCandidate r last (downloadCandidate r last g).2).1 ∧
      s.Left = r.TorrentInfo.TotalSize - (downloadCandidate r last g).1 ∧
      s.Count = r.AnnounceCount + 1 ∧ r1.AnnounceCount = r.AnnounceCount + 1 :=
  ⟨_, _, _, generateNextAnnounce_plain r g last hlast hRound, ⟨rfl, rfl, rfl, rfl⟩, rfl,
    addAnnounce_Back _ _ _ _, rfl, rfl, rfl, rfl, rfl⟩

theorem generateNextAnnounceTimes_last (r0 : RatioSpoof) (Pl Q : Announce → Prop)
    (step : ∀ r g last, sameSetting r0 r → r.AnnounceHistory.Back = some last → Pl last →
      ∃ r1 g1 s, generateNextAnnounce r g = .ok (r1, g1) ∧ sameSetting r0 r1 ∧
        r1.AnnounceHistory.Back = some s ∧ Pl s ∧ Q s)
    (n : Nat) (g : Rand) (last : Announce)
    (hlast : r0.AnnounceHistory.Back = some last) (hPl : Pl last) :
    ∃ rn gn s, generateNextAnnounceTimes (n + 1) r0 g = .ok (rn, gn) ∧
      rn.AnnounceHistory.Back = some s ∧ Pl s ∧ Q s := by
  obtain ⟨rk, gk, ek, hk, lastk, hbk, hplk⟩ :=
    generateNextAnnounceTimes_invariant
      (fun r => sameSetting r0 r ∧ ∃ l, r.AnnounceHistory.Back = some l ∧ Pl l)
      (fun r g h => by
        obtain ⟨hs, l, hb, hp⟩ := h
        obtain ⟨r1, g1, s, e, hs1, hb1, hp1, _⟩ := step r g l hs hb hp
        exact ⟨r1, g1, e, hs1, s, hb1, hp1⟩)
      n r0 g ⟨⟨rfl, rfl, rfl, rfl⟩, last, hlast, hPl⟩
  obtain ⟨r1, g1, s, e, _, hb1, hp1, hq1⟩ := step rk gk lastk hk hbk hplk
  refine ⟨r1, g1, s, ?_, hb1, hp1, hq1⟩
  rw [generateNextAnnounceTimes_succ, ek]
  exact e

theorem sameSetting_trans (r0 r r1 : RatioSpoof) (h0 : sameSetting r0 r)
    (h1 : sameSetting r r1) : sameSetting r0 r1 :=
  ⟨h1.1.trans h0.1, h1.2.1.trans h0.2.1, h1.2.2.1.trans h0.2.2.1, h1.2.2.2.trans h0.2.2.2⟩

/-! ## Bounds on the candidates -/

theorem downloadCandidate_le_total (r : RatioSpoof) (last : Announce) (g : Rand)
    (hT : r.TorrentInfo.TotalSize ≠ 0) :
    (downloadCandidate r last g).1 ≤ r.TorrentInfo.TotalSize := by
  unfold downloadCandidate
  simp only
  split_ifs with h
  · by_cases hs : r.Input.DownloadSpeed = 0
    · rw [hs, calculateNextTotalSizeByte_zero]; exact le_of_lt h
    · rw [calculateNextTotalSizeByte_fst _ _ _ _ _ _ hs]
      split_ifs with hc
      · exact le_refl _
      · by_contra hgt
        exact hc ⟨hT, not_le.mp hgt⟩
  · exact le_refl _

theorem downloadCandidate_ge_last (r : RatioSpoof) (last : Announce) (g : Rand)
    (hP : 0 < r.TorrentInfo.PieceSize) (hD : 0 ≤ r.Input.DownloadSpeed)
    (hI : 0 ≤ r.AnnounceInterval) (hle : last.Downloaded ≤ r.TorrentInfo.TotalSize) :
    last.Downloaded ≤ (downloadCandidate r last g).1 := by
  unfold downloadCandidate
  simp only
  split_ifs with h
  · by_cases hs : r.Input.DownloadSpeed = 0
    · rw [hs, calculateNextTotalSizeByte_zero]
    · rw [calculateNextTotalSizeByte_fst _ _ _ _ _ _ hs]
      split_ifs with hc
      · exact le_of_lt h
      · have h1 : 0 ≤ r.Input.DownloadSpeed * r.AnnounceInterval := mul_nonneg hD hI
        have h2 : 0 ≤ r.TorrentInfo.PieceSize * randomPieces g :=
          mul_nonneg (le_of_lt hP) (le_trans (by decide) (randomPieces_ge g))
        linarith
  · exact hle

theorem downloadCandidate_paused (r : RatioSpoof) (last : Announce) (g : Rand)
    (hD : r.Input.DownloadSpeed = 0) (hle : last.Downloaded ≤ r.TorrentInfo.TotalSize) :
    downloadCandidate r last g = (last.Downloaded, g) := by
  unfold downloadCandidate
  simp only
  split_ifs with h
  · rw [hD, calculateNextTotalSizeByte_zero]
  · rw [le_antisymm hle (not_lt.mp h)]

theorem downloadCandidate_complete (r : RatioSpoof) (last : Announce) (g : Rand)
    (hfull : last.Downloaded = r.TorrentInfo.TotalSize) :
    downloadCandidate r last g = (r.TorrentInfo.TotalSize, g) := by
  unfold downloadCandidate
  simp only
  rw [if_neg (by rw [hfull]; exact lt_irrefl _)]

theorem downloadCandidate_nonneg (r : RatioSpoof) (last : Announce) (g : Rand)
    (hT : 0 < r.TorrentInfo.TotalSize) (hP : 0 < r.TorrentInfo.PieceSize)
    (hD : 0 ≤ r.Input.DownloadSpeed) (hI : 0 ≤ r.AnnounceInterval)
    (h0 : 0 ≤ last.Downloaded) :
    0 ≤ (downloadCandidate r last g).1 := by
  by_cases hle : last.Downloaded ≤ r.TorrentInfo.TotalSize
  · exact le_trans h0 (downloadCandidate_ge_last r last g hP hD hI hle)
  · unfold downloadCandidate
    simp only
    rw [if_neg (fun h => hle (le_of_lt h))]
    exact le_of_lt hT

theorem uploadCandidate_fst (r : RatioSpoof) (last : Announce) (h : Rand)
    (hU : r.Input.UploadSpeed ≠ 0) :
    (uploadCandidate r last h).1
      = last.Uploaded + r.Input.UploadSpeed * r.AnnounceInterval
        + r.TorrentInfo.PieceSize * randomPieces h := by
  unfold uploadCandidate
  simp only
  rw [calculateNextTotalSizeByte_fst _ _ _ _ _ _ hU]
  simp

/-! ## Sequence numbers -/

theorem pushValueHistory_counts (a : announceHistory) (c : Nat) (value : Announce)
    (hv : value.Count = Int.ofNat (c + 1))
    (ha : a.map Announce.Count = retainedCounts c) :
    (a.pushValueHistory value).map Announce.Count = retainedCounts (c + 1) := by
  have hlen : a.length = min c 10 := by
    have h := congrArg List.length ha
    simpa [retainedCounts, consecutiveCounts, maxAnnounceHistory] using h
  unfold retainedCounts consecutiveCounts maxAnnounceHistory at *
  unfold announceHistory.pushValueHistory announceHistory.PushBack announceHistory.PopFront
    announceHistory.Len maxAnnounceHistory
  by_cases h : 10 ≤ c
  · have e1 : min c 10 = 9 + 1 := by omega
    have e2 : min (c + 1) 10 = 9 + 1 := by omega
    have e3 : c + 1 + 1 - (9 + 1) = c + 1 - (9 + 1) + 1 := by omega
    have e4 : c + 1 - (9 + 1) + 1 + 9 = c + 1 := by omega
    rw [if_pos (by omega), List.map_append, List.map_tail, ha, e1, e2, e3,
      List.range'_succ, List.range'_1_concat (c + 1 - (9 + 1) + 1) 9, e4]
    simp [hv]
  · have e1 : min c 10 = c := by omega
    have e2 : min (c + 1) 10 = c + 1 := by omega
    have e3 : c + 1 - c = 1 := by omega
    have e4 : c + 1 + 1 - (c + 1) = 1 := by omega
    rw [if_neg (by omega), List.map_append, ha, e1, e2, e3, e4, List.range'_1_concat 1 c,
      Nat.add_comm 1 c]
    simp [hv]

theorem fireAnnounce_ok (r : RatioSpoof) (retry : Bool) (last : Announce)
    (hlast : r.AnnounceHistory.Back = some last)
    (hok : r.Tracker.answers r.Tracker.sent.length ≠ .err) :
    ∃ r1 e, fireAnnounce r retry = .ok (r1, e) ∧
      r1.AnnounceHistory = r.AnnounceHistory ∧ r1.AnnounceCount = r.AnnounceCount := by
  unfold fireAnnounce
  simp only [hlast, HttpTracker.Announce]
  cases h : r.Tracker.answers r.Tracker.sent.length with
  | err => exact absurd h hok
  | resp t =>
    cases t with
    | none => exact ⟨_, _, rfl, rfl, rfl⟩
    | some t1 => exact ⟨_, _, rfl, rfl, rfl⟩

theorem firstAnnounce_ok (r : RatioSpoof)
    (hok : r.Tracker.answers r.Tracker.sent.length ≠ .err) :
    ∃ r1, firstAnnounce r = .ok r1 ∧
      r1.AnnounceCount = r.AnnounceCount + 1 ∧
      r1.AnnounceHistory = r.AnnounceHistory.pushValueHistory
        { Count := r.AnnounceCount + 1
          Downloaded := r.Input.InitialDownloaded
          Uploaded := r.Input.InitialUploaded
          Left := r.TorrentInfo.TotalSize - r.Input.InitialDownloaded } := by
  obtain ⟨r1, e, h, hh, hc⟩ := fireAnnounce_ok
    (addAnnounce r r.Input.InitialDownloaded r.Input.InitialUploaded
      (calculateBytesLeft r.Input.InitialDownloaded r.TorrentInfo.TotalSize)) false _
    (addAnnounce_Back _ _ _ _) hok
  refine ⟨r1, ?_, ?_, ?_⟩
  · unfold firstAnnounce; rw [h]
  · rw [hc]; rfl
  · rw [hh]; rfl

theorem generateNextAnnounce_counts (r : RatioSpoof) (g : Rand) (c : Nat) (last : Announce)
    (hlast : r.AnnounceHistory.Back = some last)
    (hc : r.AnnounceCount = Int.ofNat c)
    (hh : r.AnnounceHistory.map Announce.Count = retainedCounts c) :
    ∃ r1 g1 s, generateNextAnnounce r g = .ok (r1, g1) ∧
      r1.AnnounceHistory.Back = some s ∧ s.Count = Int.ofNat (c + 1) ∧
      r1.AnnounceCount = Int.ofNat (c + 1) ∧
      r1.AnnounceHistory.map Announce.Count = retainedCounts (c + 1) := by
  have hc1 : r.AnnounceCount + 1 = Int.ofNat (c + 1) := by rw [hc]; rfl
  refine ⟨_, _, _, generateNextAnnounce_ok r g last hlast, addAnnounce_Back _ _ _ _, hc1, hc1,
    ?_⟩
  exact pushValueHistory_counts _ c _ hc1 hh

theorem consecutiveCounts_chain (first len : Nat) :
    List.Chain' (fun x y : Int => y = x + 1) (consecutiveCounts first len) := by
  unfold consecutiveCounts
  rw [List.chain'_map]
  cases len with
  | zero => exact List.chain'_nil
  | succ k =>
    rw [List.range'_succ]
    exact (List.chain_succ_range' first k 1).imp (fun a b h => by rw [h]; rfl)

theorem counts_chain (a : announceHistory) (c : Nat)
    (ha : a.map Announce.Count = retainedCounts c) :
    List.Chain' (fun x y : Announce => y.Count = x.Count + 1) a := by
  have h := consecutiveCounts_chain (c + 1 - min c maxAnnounceHistory) (min c maxAnnounceHistory)
  rw [← retainedCounts, ← ha, List.chain'_map] at h
  exact h

/-! ## Claims on `calculateNextTotalSizeByte` with speed 0 -/

/-- C6. With speed 0, `calculateNextTotalSizeByte` returns `currentByte`
unchanged whatever the other arguments are, and it neither reads nor advances
the random source. -/
theorem calculateNextTotalSizeByte_zero_speed (g : Rand)
    (currentByte pieceSizeByte seconds limitTotalBytes : Int) :
    calculateNextTotalSizeByte g 0 currentByte pieceSizeByte seconds limitTotalBytes
      = (currentByte, g) ∧
    ∀ g1 : Rand,
      (calculateNextTotalSizeByte g1 0 currentByte pieceSizeByte seconds limitTotalBytes).1
        = currentByte :=
  ⟨calculateNextTotalSizeByte_zero g _ _ _ _,
   fun g1 => by rw [calculateNextTotalSizeByte_zero]⟩

/-! ## Claims on the history -/

/-- C2. Starting from an empty history, after pushing `values` (M entries) with
`pushValueHistory` the history is the last `min M 10` of them in push order;
its length is `min M 10`, hence at most 10; for M > 10 the length is 10 and the
oldest entry is the (M-10+1)-th pushed value; pushing the entries numbered
1..15 leaves exactly 6..15 in order. -/
theorem pushAll_capacity_fifo (values : List Announce) :
    pushAll [] values = values.drop (values.length - 10) ∧
    (pushAll [] values).Len = min values.length 10 ∧
    (pushAll [] values).Len ≤ maxAnnounceHistory ∧
    (values.length > 10 →
      (pushAll [] values).Len = 10 ∧
      (pushAll [] values).head? = values[values.length - 10]?) ∧
    pushAll [] ((List.range' 1 15).map numbered) = (List.range' 6 10).map numbered := by
  have h := pushAll_nil_eq_drop values
  unfold maxAnnounceHistory at h
  refine ⟨h, ?_, ?_, ?_, ?_⟩
  · rw [h]; unfold announceHistory.Len; rw [List.length_drop]; omega
  · rw [h]; unfold announceHistory.Len maxAnnounceHistory; rw [List.length_drop]; omega
  · intro hM
    rw [h]
    refine ⟨?_, ?_⟩
    · unfold announceHistory.Len; rw [List.length_drop]; omega
    · rw [List.head?_drop]
  · decide

/-- C2 witness: eleven pushes keep ten entries, the oldest being the second
one pushed. -/
theorem pushAll_capacity_fifo_witness :
    ((List.range' 1 11).map numbered).length > 10 ∧
    (pushAll [] ((List.range' 1 11).map numbered)).Len = 10 ∧
    (pushAll [] ((List.range' 1 11).map numbered)).head? = some (numbered 2) :=
  ⟨by decide,
   ((pushAll_capacity_fifo ((List.range' 1 11).map numbered)).2.2.2.1 (by decide)).1,
   ((pushAll_capacity_fifo ((List.range' 1 11).map numbered)).2.2.2.1 (by decide)).2.trans
     (by decide)⟩

/-! ## Claims on `generateNextAnnounce` -/

/-- C1. In a session with a non-empty history, positive total size and piece
size, non-negative download speed and announce interval, a last entry with
non-negative `Downloaded`, and a client whose `Round` returns its arguments
unchanged, `generateNextAnnounce` succeeds for every generator and the entry it
appends has `0 ≤ Downloaded ≤ TotalSize` and `Left = TotalSize - Downloaded`;
the same holds for the entry appended by the last of any `n + 1` successive
calls. -/
theorem generateNextAnnounce_bounded (r : RatioSpoof) (g : Rand) (last : Announce)
    (hlast : r.AnnounceHistory.Back = some last)
    (hT : 0 < r.TorrentInfo.TotalSize) (hP : 0 < r.TorrentInfo.PieceSize)
    (hD : 0 ≤ r.Input.DownloadSpeed) (hI : 0 ≤ r.AnnounceInterval)
    (h0 : 0 ≤ last.Downloaded)
    (hRound : ∀ d u l p, r.BitTorrentClient.Round d u l p = (d, u, l)) :
    (∃ r1 g1 s, generateNextAnnounce r g = .ok (r1, g1) ∧
      r1.AnnounceHistory = r.AnnounceHistory.pushValueHistory s ∧
      0 ≤ s.Downloaded ∧ s.Downloaded ≤ r.TorrentInfo.TotalSize ∧
      s.Left = r.TorrentInfo.TotalSize - s.Downloaded) ∧
    (∀ (n : Nat) (g0 : Rand), ∃ rn gn s,
      generateNextAnnounceTimes (n + 1) r g0 = .ok (rn, gn) ∧
      rn.AnnounceHistory.Back = some s ∧
      0 ≤ s.Downloaded ∧ s.Downloaded ≤ r.TorrentInfo.TotalSize ∧
      s.Left = r.TorrentInfo.TotalSize - s.Downloaded) := by
  have step : ∀ (r1 : RatioSpoof) (g1 : Rand) (l1 : Announce), sameSetting r r1 →
      r1.AnnounceHistory.Back = some l1 → 0 ≤ l1.Downloaded →
      ∃ r2 g2 s, generateNextAnnounce r1 g1 = .ok (r2, g2) ∧ sameSetting r r2 ∧
        r2.AnnounceHistory = r1.AnnounceHistory.pushValueHistory s ∧
        r2.AnnounceHistory.Back = some s ∧ 0 ≤ s.Downloaded ∧
        (s.Downloaded ≤ r.TorrentInfo.TotalSize ∧
          s.Left = r.TorrentInfo.TotalSize - s.Downloaded) := by
    intro r1 g1 l1 hs hb hl
    obtain ⟨hti, hin, hcl, hai⟩ := hs
    obtain ⟨r2, g2, s, e, hs2, hpush, hb2, hd, _, hleft, _, _⟩ :=
      generateNextAnnounce_plain_step r1 g1 l1 hb (by rw [hcl]; exact hRound)
    refine ⟨r2, g2, s, e, sameSetting_trans r r1 r2 ⟨hti, hin, hcl, hai⟩ hs2, hpush, hb2,
      ?_, ?_, ?_⟩
    · rw [hd]
      exact downloadCandidate_nonneg r1 l1 g1 (by rw [hti]; exact hT) (by rw [hti]; exact hP)
        (by rw [hin]; exact hD) (by rw [hai]; exact hI) hl
    · rw [hd, ← hti]
      exact downloadCandidate_le_total r1 l1 g1 (by rw [hti]; exact ne_of_gt hT)
    · rw [hleft, hd, hti]
  refine ⟨?_, ?_⟩
  · obtain ⟨r2, g2, s, e, _, hpush, _, h1, h2, h3⟩ :=
      step r g last ⟨rfl, rfl, rfl, rfl⟩ hlast h0
    exact ⟨r2, g2, s, e, hpush, h1, h2, h3⟩
  · intro n g0
    obtain ⟨rn, gn, s, e, hb, h1, h2, h3⟩ :=
      generateNextAnnounceTimes_last r (fun a => 0 ≤ a.Downloaded)
        (fun a => a.Downloaded ≤ r.TorrentInfo.TotalSize ∧
          a.Left = r.TorrentInfo.TotalSize - a.Downloaded)
        (fun r1 g1 l1 hs hb hl => by
          obtain ⟨r2, g2, s, e, hs2, _, hb2, h1, h2⟩ := step r1 g1 l1 hs hb hl
          exact ⟨r2, g2, s, e, hs2, hb2, h1, h2⟩)
        n g0 last hlast h0
    exact ⟨rn, gn, s, e, hb, h1, h2, h3⟩

/-- C1 witness: the sample session (total 1000, piece 10, speed 100, interval
10) with every jitter equal to 5. -/
theorem generateNextAnnounce_bounded_witness :
    ∃ r1 g1 s, generateNextAnnounce sampleSession fixedRand = .ok (r1, g1) ∧
      r1.AnnounceHistory = sampleSession.AnnounceHistory.pushValueHistory s ∧
      0 ≤ s.Downloaded ∧ s.Downloaded ≤ sampleSession.TorrentInfo.TotalSize ∧
      s.Left = sampleSession.TorrentInfo.TotalSize - s.Downloaded :=
  (generateNextAnnounce_bounded sampleSession fixedRand
    { Count := 1, Downloaded := 0, Uploaded := 0, Left := 1000 } rfl
    (by decide) (by decide) (by decide) (by decide) (by decide)
    (fun _ _ _ _ => rfl)).1

/-- C7 (as amended). In a session with a non-empty history, download speed 0
and a last entry with `Downloaded ≤ TotalSize`, the download candidate of
`generateNextAnnounce` is the last entry's `Downloaded` and no draw is made for
it; with a `Round` that returns its arguments unchanged, after any number of
`generateNextAnnounce` calls the latest entry still has that `Downloaded`. -/
theorem generateNextAnnounce_paused (r : RatioSpoof) (g : Rand) (last : Announce)
    (hlast : r.AnnounceHistory.Back = some last)
    (hD : r.Input.DownloadSpeed = 0) (hle : last.Downloaded ≤ r.TorrentInfo.TotalSize) :
    downloadCandidate r last g = (last.Downloaded, g) ∧
    ((∀ d u l p, r.BitTorrentClient.Round d u l p = (d, u, l)) →
      ∀ (n : Nat) (g0 : Rand), ∃ rn gn s,
        generateNextAnnounceTimes n r g0 = .ok (rn, gn) ∧
        rn.AnnounceHistory.Back = some s ∧ s.Downloaded = last.Downloaded) := by
  refine ⟨downloadCandidate_paused r last g hD hle, ?_⟩
  intro hRound n g0
  obtain ⟨rn, gn, e, _, s, hb, hs⟩ :=
    generateNextAnnounceTimes_invariant
      (fun r1 => sameSetting r r1 ∧
        ∃ l, r1.AnnounceHistory.Back = some l ∧ l.Downloaded = last.Downloaded)
      (fun r1 g1 h => by
        obtain ⟨hs, l, hb, hl⟩ := h
        obtain ⟨hti, hin, hcl, hai⟩ := hs
        obtain ⟨r2, g2, s, e, hs2, _, hb2, hd, _⟩ :=
          generateNextAnnounce_plain_step r1 g1 l hb (by rw [hcl]; exact hRound)
        refine ⟨r2, g2, e, sameSetting_trans r r1 r2 ⟨hti, hin, hcl, hai⟩ hs2, s, hb2, ?_⟩
        rw [hd, downloadCandidate_paused r1 l g1 (by rw [hin]; exact hD)
          (by rw [hl, hti]; exact hle)]
        exact hl)
      n r g0 ⟨⟨rfl, rfl, rfl, rfl⟩, last, hlast, rfl⟩
  exact ⟨rn, gn, s, e, hb, hs⟩

/-- C7 witness: the session paused at 400 of 1000 bytes. -/
theorem generateNextAnnounce_paused_witness :
    downloadCandidate pausedSession
        { Count := 1, Downloaded := 400, Uploaded := 0, Left := 600 } fixedRand
      = (400, fixedRand) ∧
    ∃ rn gn s, generateNextAnnounceTimes 3 pausedSession fixedRand = .ok (rn, gn) ∧
      rn.AnnounceHistory.Back = some s ∧ s.Downloaded = 400 :=
  ⟨(generateNextAnnounce_paused pausedSession fixedRand
      { Count := 1, Downloaded := 400, Uploaded := 0, Left := 600 } rfl rfl (by decide)).1,
   (generateNextAnnounce_paused pausedSession fixedRand
      { Count := 1, Downloaded := 400, Uploaded := 0, Left := 600 } rfl rfl (by decide)).2
      (fun _ _ _ _ => rfl) 3 fixedRand⟩

/-- C7 counterexample: with download speed 0 and a last entry reporting 150
bytes of a 100-byte torrent, the download candidate is 100, not 150, and the
entry appended by `generateNextAnnounce` has `Downloaded = 100`; that history is
the one `firstAnnounce` builds from `InitialDownloaded = 150`. -/
theorem generateNextAnnounce_paused_overfull :
    overfullPaused.AnnounceHistory.Back
      = some { Count := 1, Downloaded := 150, Uploaded := 0, Left := -50 } ∧
    overfullPaused.Input.DownloadSpeed = 0 ∧
    (downloadCandidate overfullPaused
      { Count := 1, Downloaded := 150, Uploaded := 0, Left := -50 } fixedRand).1 = 100 ∧
    (downloadCandidate overfullPaused
      { Count := 1, Downloaded := 150, Uploaded := 0, Left := -50 } fixedRand).1 ≠ 150 ∧
    (generateNextAnnounce overfullPaused fixedRand).toOption.bind
        (fun p => p.1.AnnounceHistory.Back)
      = some { Count := 2, Downloaded := 100, Uploaded := 0, Left := 0 } ∧
    (firstAnnounce (NewRatioSpoofState plainClient { TotalSize := 100, PieceSize := 10 }
        steadyTracker
        { InitialDownloaded := 150, InitialUploaded := 0, DownloadSpeed := 0,
          UploadSpeed := 0, Port := 8999 })).toOption.map (fun r => r.AnnounceHistory)
      = some overfullPaused.AnnounceHistory := by
  decide

/-- C8. In a session whose last entry has `Downloaded = TotalSize`, for every
download speed (nonzero or not), announce interval and generator,
`generateNextAnnounce` computes download candidate `TotalSize` without drawing
and left candidate 0; with a `Round` that returns its arguments unchanged, the
entry appended by the last of any `n + 1` successive calls has
`Downloaded = TotalSize` and `Left = 0`. -/
theorem generateNextAnnounce_complete (r : RatioSpoof) (g : Rand) (last : Announce)
    (hlast : r.AnnounceHistory.Back = some last)
    (hfull : last.Downloaded = r.TorrentInfo.TotalSize) :
    downloadCandidate r last g = (r.TorrentInfo.TotalSize, g) ∧
    calculateBytesLeft (downloadCandidate r last g).1 r.TorrentInfo.TotalSize = 0 ∧
    ((∀ d u l p, r.BitTorrentClient.Round d u l p = (d, u, l)) →
      ∀ (n : Nat) (g0 : Rand), ∃ rn gn s,
        generateNextAnnounceTimes (n + 1) r g0 = .ok (rn, gn) ∧
        rn.AnnounceHistory.Back = some s ∧
        s.Downloaded = r.TorrentInfo.TotalSize ∧ s.Left = 0) := by
  refine ⟨downloadCandidate_complete r last g hfull, ?_, ?_⟩
  · rw [downloadCandidate_complete r last g hfull]
    unfold calculateBytesLeft
    exact sub_self _
  · intro hRound n g0
    exact generateNextAnnounceTimes_last r
      (fun a => a.Downloaded = r.TorrentInfo.TotalSize) (fun a => a.Left = 0)
      (fun r1 g1 l1 hs hb hl => by
        obtain ⟨hti, hin, hcl, hai⟩ := hs
        obtain ⟨r2, g2, s, e, hs2, _, hb2, hd, _, hleft, _⟩ :=
          generateNextAnnounce_plain_step r1 g1 l1 hb (by rw [hcl]; exact hRound)
        have hl1 : l1.Downloaded = r.TorrentInfo.TotalSize := hl
        have hdc := downloadCandidate_complete r1 l1 g1 (by rw [hl1, hti])
        refine ⟨r2, g2, s, e, sameSetting_trans r r1 r2 ⟨hti, hin, hcl, hai⟩ hs2, hb2, ?_, ?_⟩
        · show s.Downloaded = r.TorrentInfo.TotalSize
          rw [hd, hdc, hti]
        · show s.Left = 0
          rw [hleft, hdc]; exact sub_self _)
      n g0 last hlast hfull

/-- C8 witness: the completed sample session (download speed 100). -/
theorem generateNextAnnounce_complete_witness :
    completeSession.Input.DownloadSpeed ≠ 0 ∧
    downloadCandidate completeSession
        { Count := 1, Downloaded := 1000, Uploaded := 70, Left := 0 } fixedRand
      = (1000, fixedRand) ∧
    ∃ rn gn s, generateNextAnnounceTimes (2 + 1) completeSession fixedRand = .ok (rn, gn) ∧
      rn.AnnounceHistory.Back = some s ∧ s.Downloaded = 1000 ∧ s.Left = 0 :=
  ⟨by decide,
   (generateNextAnnounce_complete completeSession fixedRand
      { Count := 1, Downloaded := 1000, Uploaded := 70, Left := 0 } rfl rfl).1,
   (generateNextAnnounce_complete completeSession fixedRand
      { Count := 1, Downloaded := 1000, Uploaded := 70, Left := 0 } rfl rfl).2.2
      (fun _ _ _ _ => rfl) 2 fixedRand⟩

/-! ## Claims on the sequence numbers -/

/-- C3. From a session with `AnnounceCount = 0` and an empty history whose
tracker answers the first announce without error, `firstAnnounce` followed by
`n` calls of `generateNextAnnounce` succeeds for every `n`, every generator and
every `Round`; the entry appended last (the `n+1`-th one appended) has
`Count = n + 1` and so has `AnnounceCount`; the Counts held in the history are
the last `min (n+1) 10` of `1..n+1`, each one more than the one before it. -/
theorem announce_counts_consecutive (r : RatioSpoof) (g : Rand) (n : Nat)
    (hc : r.AnnounceCount = 0) (hh : r.AnnounceHistory = [])
    (hok : r.Tracker.answers r.Tracker.sent.length ≠ .err) :
    ∃ r1 rn gn s, firstAnnounce r = .ok r1 ∧
      generateNextAnnounceTimes n r1 g = .ok (rn, gn) ∧
      rn.AnnounceCount = Int.ofNat (n + 1) ∧
      rn.AnnounceHistory.Back = some s ∧ s.Count = Int.ofNat (n + 1) ∧
      rn.AnnounceHistory.map Announce.Count = retainedCounts (n + 1) ∧
      List.Chain' (fun x y : Announce => y.Count = x.Count + 1) rn.AnnounceHistory := by
  obtain ⟨r1, e1, hc1, hh1⟩ := firstAnnounce_ok r hok
  rw [hc] at hc1 hh1
  rw [hh] at hh1
  have key : ∀ k : Nat, ∃ rk gk s, generateNextAnnounceTimes k r1 g = .ok (rk, gk) ∧
      rk.AnnounceCount = Int.ofNat (k + 1) ∧
      rk.AnnounceHistory.Back = some s ∧ s.Count = Int.ofNat (k + 1) ∧
      rk.AnnounceHistory.map Announce.Count = retainedCounts (k + 1) := by
    intro k
    induction k with
    | zero =>
      refine ⟨r1, g,
        { Count := 0 + 1
          Downloaded := r.Input.InitialDownloaded
          Uploaded := r.Input.InitialUploaded
          Left := r.TorrentInfo.TotalSize - r.Input.InitialDownloaded },
        rfl, hc1, ?_, rfl, ?_⟩
      · rw [hh1]; rfl
      · rw [hh1]; rfl
    | succ j ih =>
      obtain ⟨rj, gj, sj, ej, hcj, hbj, _, hmj⟩ := ih
      obtain ⟨rk, gk, sk, ek, hbk, hsk, hck, hmk⟩ :=
        generateNextAnnounce_counts rj gj (j + 1) sj hbj hcj hmj
      refine ⟨rk, gk, sk, ?_, hck, hbk, hsk, hmk⟩
      rw [generateNextAnnounceTimes_succ, ej]
      exact ek
  obtain ⟨rn, gn, s, en, hcn, hbn, hsn, hmn⟩ := key n
  exact ⟨r1, rn, gn, s, e1, en, hcn, hbn, hsn, hmn, counts_chain _ _ hmn⟩

/-- C3 witness: a fresh session for a 1000-byte torrent, its first announce and
twelve further steps; the history then holds the Counts 4..13. -/
theorem announce_counts_consecutive_witness :
    retainedCounts (12 + 1) = [4, 5, 6, 7, 8, 9, 10, 11, 12, 13] ∧
    ∃ r1 rn gn s,
      firstAnnounce (NewRatioSpoofState plainClient { TotalSize := 1000, PieceSize := 10 }
        steadyTracker
        { InitialDownloaded := 0, InitialUploaded := 0, DownloadSpeed := 100,
          UploadSpeed := 50, Port := 8999 }) = .ok r1 ∧
      generateNextAnnounceTimes 12 r1 fixedRand = .ok (rn, gn) ∧
      rn.AnnounceCount = Int.ofNat (12 + 1) ∧
      rn.AnnounceHistory.Back = some s ∧ s.Count = Int.ofNat (12 + 1) ∧
      rn.AnnounceHistory.map Announce.Count = retainedCounts (12 + 1) ∧
      List.Chain' (fun x y : Announce => y.Count = x.Count + 1) rn.AnnounceHistory :=
  ⟨by decide,
   announce_counts_consecutive
    (NewRatioSpoofState plainClient { TotalSize := 1000, PieceSize := 10 } steadyTracker
      { InitialDownloaded := 0, InitialUploaded := 0, DownloadSpeed := 100,
        UploadSpeed := 50, Port := 8999 })
    fixedRand 12 rfl rfl (by decide)⟩

/-! ## What one call does to the session -/

theorem fireAnnounce_eq (r : RatioSpoof) (retry : Bool) (last : Announce)
    (hlast : r.AnnounceHistory.Back = some last) :
    fireAnnounce r retry =
      match r.Tracker.answers r.Tracker.sent.length with
      | .err => .error .trackerFatal
      | .resp none =>
        .ok ({ r with
                Tracker :=
                  { r.Tracker with
                    sent := r.Tracker.sent ++
                      [{ port := r.Input.Port
                         uploaded := last.Uploaded
                         downloaded := last.Downloaded
                         left := last.Left
                         event := r.Status
                         numwant := r.NumWant
                         retry := retry }] } }, none)
      | .resp (some trackerResp) =>
        .ok ({ r with
                Tracker :=
                  { r.Tracker with
                    sent := r.Tracker.sent ++
                      [{ port := r.Input.Port
                         uploaded := last.Uploaded
                         downloaded := last.Downloaded
                         left := last.Left
                         event := r.Status
                         numwant := r.NumWant
                         retry := retry }] }
                Seeders := trackerResp.Seeders
                Leechers := trackerResp.Leechers
                AnnounceInterval := trackerResp.Interval }, none) := by
  simp only [fireAnnounce, hlast, HttpTracker.Announce, updateSeedersAndLeechers]

theorem fireAnnounce_empty (r : RatioSpoof) (retry : Bool)
    (hempty : r.AnnounceHistory = []) :
    fireAnnounce r retry = .error .emptyHistoryPanic := by
  simp [fireAnnounce, hempty, announceHistory.Back]

theorem generateNextAnnounce_empty (r : RatioSpoof) (g : Rand)
    (hempty : r.AnnounceHistory = []) :
    generateNextAnnounce r g = .error .emptyHistoryPanic := by
  simp [generateNextAnnounce, hempty, announceHistory.Back]

theorem Back_of_ne_nil (a : announceHistory) (h : a ≠ []) : ∃ last, a.Back = some last := by
  unfold announceHistory.Back
  cases hb : a.getLast? with
  | none => exact absurd (List.getLast?_eq_none_iff.mp hb) h
  | some v => exact ⟨v, rfl⟩

theorem ne_nil_of_Back (a : announceHistory) (last : Announce) (h : a.Back = some last) :
    a ≠ [] := by
  intro hnil
  rw [hnil] at h
  exact Option.noConfusion h

theorem fireAnnounce_inv (r : RatioSpoof) (retry : Bool) (r1 : RatioSpoof) (e : Option String)
    (h : fireAnnounce r retry = .ok (r1, e)) :
    e = none ∧ ∃ last, r.AnnounceHistory.Back = some last ∧
      r1.AnnounceHistory = r.AnnounceHistory ∧ r1.AnnounceCount = r.AnnounceCount ∧
      r1.Status = r.Status ∧ r1.NumWant = r.NumWant ∧
      r1.Tracker.sent = r.Tracker.sent ++
        [{ port := r.Input.Port
           uploaded := last.Uploaded
           downloaded := last.Downloaded
           left := last.Left
           event := r.Status
           numwant := r.NumWant
           retry := retry }] := by
  by_cases hnil : r.AnnounceHistory = []
  · rw [fireAnnounce_empty r retry hnil] at h
    exact Except.noConfusion h
  · obtain ⟨last, hlast⟩ := Back_of_ne_nil _ hnil
    rw [fireAnnounce_eq r retry last hlast] at h
    cases ha : r.Tracker.answers r.Tracker.sent.length with
    | err =>
      rw [ha] at h
      exact Except.noConfusion h
    | resp t =>
      rw [ha] at h
      cases t with
      | none =>
        simp only [Except.ok.injEq, Prod.mk.injEq] at h
        obtain ⟨h1, h2⟩ := h
        subst h1
        exact ⟨h2.symm, last, hlast, rfl, rfl, rfl, rfl, rfl⟩
      | some t1 =>
        simp only [Except.ok.injEq, Prod.mk.injEq] at h
        obtain ⟨h1, h2⟩ := h
        subst h1
        exact ⟨h2.symm, last, hlast, rfl, rfl, rfl, rfl, rfl⟩

theorem generateNextAnnounce_inv (r : RatioSpoof) (g : Rand) (r1 : RatioSpoof) (g1 : Rand)
    (h : generateNextAnnounce r g = .ok (r1, g1)) :
    ∃ last s, r.AnnounceHistory.Back = some last ∧
      r1.AnnounceHistory = r.AnnounceHistory.pushValueHistory s ∧
      r1.AnnounceHistory.Back = some s ∧
      s.Count = r.AnnounceCount + 1 ∧ r1.AnnounceCount = r.AnnounceCount + 1 ∧
      r1.Status = r.Status ∧ r1.NumWant = r.NumWant ∧ r1.Tracker = r.Tracker := by
  by_cases hnil : r.AnnounceHistory = []
  · rw [generateNextAnnounce_empty r g hnil] at h
    exact Except.noConfusion h
  · obtain ⟨last, hlast⟩ := Back_of_ne_nil _ hnil
    rw [generateNextAnnounce_ok r g last hlast] at h
    simp only [Except.ok.injEq, Prod.mk.injEq] at h
    obtain ⟨h1, _⟩ := h
    subst h1
    exact ⟨last, _, hlast, rfl, addAnnounce_Back _ _ _ _, rfl, rfl, rfl, rfl, rfl⟩

theorem gracefullyExit_inv (r r1 : RatioSpoof) (h : gracefullyExit r = .ok r1) :
    ∃ last, r.AnnounceHistory.Back = some last ∧
      r1.AnnounceHistory = r.AnnounceHistory ∧ r1.AnnounceCount = r.AnnounceCount ∧
      r1.Status = "stopped" ∧ r1.NumWant = 0 ∧
      r1.Tracker.sent = r.Tracker.sent ++
        [{ port := r.Input.Port
           uploaded := last.Uploaded
           downloaded := last.Downloaded
           left := last.Left
           event := "stopped"
           numwant := 0
           retry := false }] := by
  unfold gracefullyExit at h
  cases hf : fireAnnounce { r with Status := "stopped", NumWant := 0 } false with
  | error e =>
    rw [hf] at h
    exact Except.noConfusion h
  | ok p =>
    obtain ⟨r2, e⟩ := p
    rw [hf] at h
    simp only [Except.ok.injEq] at h
    subst h
    obtain ⟨_, last, hb, hh, hc, hs, hn, hq⟩ := fireAnnounce_inv _ _ _ _ hf
    exact ⟨last, hb, hh, hc, hs, hn, hq⟩

theorem firstAnnounce_inv (r r1 : RatioSpoof) (h : firstAnnounce r = .ok r1) :
    r1.AnnounceHistory = r.AnnounceHistory.pushValueHistory
        { Count := r.AnnounceCount + 1
          Downloaded := r.Input.InitialDownloaded
          Uploaded := r.Input.InitialUploaded
          Left := r.TorrentInfo.TotalSize - r.Input.InitialDownloaded } ∧
      r1.AnnounceCount = r.AnnounceCount + 1 ∧
      r1.Status = r.Status ∧ r1.NumWant = r.NumWant ∧
      r1.Tracker.sent = r.Tracker.sent ++
        [{ port := r.Input.Port
           uploaded := r.Input.InitialUploaded
           downloaded := r.Input.InitialDownloaded
           left := r.TorrentInfo.TotalSize - r.Input.InitialDownloaded
           event := r.Status
           numwant := r.NumWant
           retry := false }] := by
  unfold firstAnnounce at h
  cases hf : fireAnnounce
      (addAnnounce r r.Input.InitialDownloaded r.Input.InitialUploaded
        (calculateBytesLeft r.Input.InitialDownloaded r.TorrentInfo.TotalSize)) false with
  | error e =>
    rw [hf] at h
    exact Except.noConfusion h
  | ok p =>
    obtain ⟨r2, e⟩ := p
    rw [hf] at h
    simp only [Except.ok.injEq] at h
    subst h
    obtain ⟨_, last, hb, hh, hc, hs, hn, hq⟩ := fireAnnounce_inv _ _ _ _ hf
    rw [addAnnounce_Back] at hb
    simp only [Option.some.injEq] at hb
    subst hb
    exact ⟨hh, hc, hs, hn, hq⟩

theorem fireAnnounce_setting (r : RatioSpoof) (retry : Bool) (r1 : RatioSpoof)
    (e : Option String) (h : fireAnnounce r retry = .ok (r1, e)) :
    r1.TorrentInfo = r.TorrentInfo ∧ r1.Input = r.Input ∧
      r1.BitTorrentClient = r.BitTorrentClient ∧ r1.Tracker.answers = r.Tracker.answers := by
  by_cases hnil : r.AnnounceHistory = []
  · rw [fireAnnounce_empty r retry hnil] at h
    exact Except.noConfusion h
  · obtain ⟨last, hlast⟩ := Back_of_ne_nil _ hnil
    rw [fireAnnounce_eq r retry last hlast] at h
    cases ha : r.Tracker.answers r.Tracker.sent.length with
    | err =>
      rw [ha] at h
      exact Except.noConfusion h
    | resp t =>
      rw [ha] at h
      cases t with
      | none =>
        simp only [Except.ok.injEq, Prod.mk.injEq] at h
        obtain ⟨h1, _⟩ := h
        subst h1
        exact ⟨rfl, rfl, rfl, rfl⟩
      | some t1 =>
        simp only [Except.ok.injEq, Prod.mk.injEq] at h
        obtain ⟨h1, _⟩ := h
        subst h1
        exact ⟨rfl, rfl, rfl, rfl⟩

theorem firstAnnounce_setting (r r1 : RatioSpoof) (h : firstAnnounce r = .ok r1) :
    r1.TorrentInfo = r.TorrentInfo ∧ r1.Input = r.Input ∧
      r1.BitTorrentClient = r.BitTorrentClient := by
  unfold firstAnnounce at h
  cases hf : fireAnnounce
      (addAnnounce r r.Input.InitialDownloaded r.Input.InitialUploaded
        (calculateBytesLeft r.Input.InitialDownloaded r.TorrentInfo.TotalSize)) false with
  | error e =>
    rw [hf] at h
    exact Except.noConfusion h
  | ok p =>
    obtain ⟨r2, e⟩ := p
    rw [hf] at h
    simp only [Except.ok.injEq] at h
    subst h
    obtain ⟨h1, h2, h3, _⟩ := fireAnnounce_setting _ _ _ _ hf
    exact ⟨h1, h2, h3⟩

theorem gracefullyExit_ok (r : RatioSpoof) (last : Announce)
    (hlast : r.AnnounceHistory.Back = some last)
    (hok : r.Tracker.answers r.Tracker.sent.length ≠ .err) :
    ∃ r1, gracefullyExit r = .ok r1 := by
  obtain ⟨r1, e, h, _⟩ :=
    fireAnnounce_ok { r with Status := "stopped", NumWant := 0 } false last hlast hok
  exact ⟨r1, by unfold gracefullyExit; rw [h]⟩

/-! ## Claims on `gracefullyExit`, `firstAnnounce` and `fireAnnounce` -/

/-- C11. In a session with a non-empty history whose tracker answers without
error, `gracefullyExit` returns a state with `Status = "stopped"` and
`NumWant = 0`, having sent exactly one more query, with retry off, event
"stopped", numwant 0 and the uploaded, downloaded and left values of the latest
entry; `AnnounceHistory` and `AnnounceCount` are unchanged.  When the tracker
answers with an error the call ends in the fatal exit. -/
theorem gracefullyExit_leaving (r : RatioSpoof) (last : Announce)
    (hlast : r.AnnounceHistory.Back = some last) :
    (r.Tracker.answers r.Tracker.sent.length ≠ .err →
      ∃ r1, gracefullyExit r = .ok r1 ∧ r1.Status = "stopped" ∧ r1.NumWant = 0 ∧
        r1.Tracker.sent = r.Tracker.sent ++
          [{ port := r.Input.Port
             uploaded := last.Uploaded
             downloaded := last.Downloaded
             left := last.Left
             event := "stopped"
             numwant := 0
             retry := false }] ∧
        r1.AnnounceHistory = r.AnnounceHistory ∧ r1.AnnounceCount = r.AnnounceCount) ∧
    (r.Tracker.answers r.Tracker.sent.length = .err →
      gracefullyExit r = .error .trackerFatal) := by
  refine ⟨?_, ?_⟩
  · intro hok
    obtain ⟨r1, h⟩ := gracefullyExit_ok r last hlast hok
    obtain ⟨l, hb, hh, hc, hs, hn, hq⟩ := gracefullyExit_inv r r1 h
    have hl : l = last := Option.some.inj (hb.symm.trans hlast)
    subst hl
    exact ⟨r1, h, hs, hn, hq, hh, hc⟩
  · intro herr
    have hf := fireAnnounce_eq { r with Status := "stopped", NumWant := 0 } false last hlast
    simp only [herr] at hf
    unfold gracefullyExit
    rw [hf]

/-- C11 witness: shutting down the sample session. -/
theorem gracefullyExit_leaving_witness :
    ∃ r1, gracefullyExit sampleSession = .ok r1 ∧ r1.Status = "stopped" ∧ r1.NumWant = 0 ∧
      r1.Tracker.sent = sampleSession.Tracker.sent ++
        [{ port := 8999, uploaded := 0, downloaded := 0, left := 1000, event := "stopped",
           numwant := 0, retry := false }] ∧
      r1.AnnounceHistory = sampleSession.AnnounceHistory ∧
      r1.AnnounceCount = sampleSession.AnnounceCount :=
  (gracefullyExit_leaving sampleSession
    { Count := 1, Downloaded := 0, Uploaded := 0, Left := 1000 } rfl).1 (by decide)

/-- C13. On a session with `Status = "started"`, `AnnounceCount = 0` and an
empty history whose tracker answers without error, `firstAnnounce` returns a
state whose history is the single entry with `Count = 1`,
`Downloaded = InitialDownloaded`, `Uploaded = InitialUploaded` and
`Left = TotalSize - InitialDownloaded`; `AnnounceCount` is 1, `Status` is still
"started", and exactly one query was sent, with retry off.  The function takes
no random source, and the history is the same whatever the speeds and the piece
size are. -/
theorem firstAnnounce_from_inputs (r : RatioSpoof)
    (hc : r.AnnounceCount = 0) (hh : r.AnnounceHistory = [])
    (hs : r.Status = "started")
    (hok : r.Tracker.answers r.Tracker.sent.length ≠ .err) :
    ∃ r1, firstAnnounce r = .ok r1 ∧
      r1.AnnounceHistory =
        [{ Count := 1
           Downloaded := r.Input.InitialDownloaded
           Uploaded := r.Input.InitialUploaded
           Left := r.TorrentInfo.TotalSize - r.Input.InitialDownloaded }] ∧
      r1.AnnounceCount = 1 ∧ r1.Status = "started" ∧
      r1.Tracker.sent = r.Tracker.sent ++
        [{ port := r.Input.Port
           uploaded := r.Input.InitialUploaded
           downloaded := r.Input.InitialDownloaded
           left := r.TorrentInfo.TotalSize - r.Input.InitialDownloaded
           event := "started"
           numwant := r.NumWant
           retry := false }] ∧
      ∀ downloadSpeed uploadSpeed pieceSize : Int, ∃ r2,
        firstAnnounce
          { r with
            Input := { r.Input with DownloadSpeed := downloadSpeed, UploadSpeed := uploadSpeed }
            TorrentInfo := { r.TorrentInfo with PieceSize := pieceSize } } = .ok r2 ∧
        r2.AnnounceHistory = r1.AnnounceHistory := by
  obtain ⟨r1, h, _⟩ := firstAnnounce_ok r hok
  obtain ⟨hh1, hc1, hs1, _, hq1⟩ := firstAnnounce_inv r r1 h
  rw [hc, hh] at hh1
  rw [hc] at hc1
  rw [hs] at hs1 hq1
  refine ⟨r1, h, hh1, hc1, hs1, hq1, ?_⟩
  intro ds us ps
  obtain ⟨r2, h2, _⟩ := firstAnnounce_ok
    { r with
      Input := { r.Input with DownloadSpeed := ds, UploadSpeed := us }
      TorrentInfo := { r.TorrentInfo with PieceSize := ps } } hok
  obtain ⟨hh2, _⟩ := firstAnnounce_inv _ r2 h2
  refine ⟨r2, h2, ?_⟩
  rw [hh2, hh1]
  simp only [hc, hh]

/-- C13 witness: the first announce of the fresh session. -/
theorem firstAnnounce_from_inputs_witness :
    ∃ r1, firstAnnounce freshSession = .ok r1 ∧
      r1.AnnounceHistory = [{ Count := 1, Downloaded := 0, Uploaded := 0, Left := 1000 }] ∧
      r1.AnnounceCount = 1 ∧ r1.Status = "started" := by
  obtain ⟨r1, h, hh, hc, hs, _⟩ :=
    firstAnnounce_from_inputs freshSession rfl rfl rfl (by decide)
  exact ⟨r1, h, hh, hc, hs⟩

/-- C15. In a session with a non-empty history, when the tracker answers with a
response `resp` and no error, `fireAnnounce` returns a nil error and a state
with `Seeders = resp.Seeders`, `Leechers = resp.Leechers` and
`AnnounceInterval = resp.Interval`; `AnnounceHistory`, `AnnounceCount`,
`Status` and `NumWant` are unchanged, and the one query sent carries the
uploaded, downloaded and left values of the latest entry. -/
theorem fireAnnounce_response (r : RatioSpoof) (retry : Bool) (last : Announce)
    (resp : TrackerResponse)
    (hlast : r.AnnounceHistory.Back = some last)
    (hresp : r.Tracker.answers r.Tracker.sent.length = .resp (some resp)) :
    ∃ r1, fireAnnounce r retry = .ok (r1, none) ∧
      r1.Seeders = resp.Seeders ∧ r1.Leechers = resp.Leechers ∧
      r1.AnnounceInterval = resp.Interval ∧
      r1.AnnounceHistory = r.AnnounceHistory ∧ r1.AnnounceCount = r.AnnounceCount ∧
      r1.Status = r.Status ∧ r1.NumWant = r.NumWant ∧
      r1.Tracker.sent = r.Tracker.sent ++
        [{ port := r.Input.Port
           uploaded := last.Uploaded
           downloaded := last.Downloaded
           left := last.Left
           event := r.Status
           numwant := r.NumWant
           retry := retry }] := by
  have h := fireAnnounce_eq r retry last hlast
  simp only [hresp] at h
  exact ⟨_, h, rfl, rfl, rfl, rfl, rfl, rfl, rfl, rfl⟩

/-- C15 witness: the sample session announcing to the steady tracker. -/
theorem fireAnnounce_response_witness :
    ∃ r1, fireAnnounce sampleSession true = .ok (r1, none) ∧
      r1.Seeders = 5 ∧ r1.Leechers = 3 ∧ r1.AnnounceInterval = 1800 ∧
      r1.AnnounceHistory = sampleSession.AnnounceHistory ∧
      r1.AnnounceCount = sampleSession.AnnounceCount ∧
      r1.Status = sampleSession.Status ∧ r1.NumWant = sampleSession.NumWant ∧
      r1.Tracker.sent = sampleSession.Tracker.sent ++
        [{ port := 8999, uploaded := 0, downloaded := 0, left := 1000, event := "started",
           numwant := 200, retry := true }] :=
  fireAnnounce_response sampleSession true
    { Count := 1, Downloaded := 0, Uploaded := 0, Left := 1000 }
    { Interval := 1800, Seeders := 5, Leechers := 3 } rfl rfl

/-- C20. In a session with a non-empty history, when the tracker answers with
no error and a nil response, `fireAnnounce` returns a nil error and leaves
`Seeders`, `Leechers`, `AnnounceInterval`, `NumWant`, `Status`,
`AnnounceCount`, `AnnounceHistory`, the torrent, the input and the client
unchanged (only the transport has recorded the query); and whenever
`fireAnnounce` returns at all, the error it returns is nil. -/
theorem fireAnnounce_nil_response (r : RatioSpoof) (retry : Bool) (last : Announce)
    (hlast : r.AnnounceHistory.Back = some last)
    (hnil : r.Tracker.answers r.Tracker.sent.length = .resp none) :
    (∃ r1, fireAnnounce r retry = .ok (r1, none) ∧
      r1.Seeders = r.Seeders ∧ r1.Leechers = r.Leechers ∧
      r1.AnnounceInterval = r.AnnounceInterval ∧ r1.NumWant = r.NumWant ∧
      r1.Status = r.Status ∧ r1.AnnounceCount = r.AnnounceCount ∧
      r1.AnnounceHistory = r.AnnounceHistory ∧ r1.TorrentInfo = r.TorrentInfo ∧
      r1.Input = r.Input ∧ r1.BitTorrentClient = r.BitTorrentClient ∧
      r1.Tracker.answers = r.Tracker.answers) ∧
    (∀ (r2 : RatioSpoof) (retry2 : Bool) (r3 : RatioSpoof) (e : Option String),
      fireAnnounce r2 retry2 = .ok (r3, e) → e = none) := by
  refine ⟨?_, fun r2 retry2 r3 e h => (fireAnnounce_inv r2 retry2 r3 e h).1⟩
  have h := fireAnnounce_eq r retry last hlast
  simp only [hnil] at h
  exact ⟨_, h, rfl, rfl, rfl, rfl, rfl, rfl, rfl, rfl, rfl, rfl, rfl⟩

/-- C20 witness: the sample session announcing to the silent tracker keeps its
interval of 10 and its peer counts. -/
theorem fireAnnounce_nil_response_witness :
    ∃ r1, fireAnnounce silentSession true = .ok (r1, none) ∧
      r1.Seeders = 0 ∧ r1.Leechers = 0 ∧ r1.AnnounceInterval = 10 := by
  obtain ⟨r1, h, h1, h2, h3, _⟩ :=
    (fireAnnounce_nil_response silentSession true
      { Count := 1, Downloaded := 0, Uploaded := 0, Left := 1000 } rfl rfl).1
  exact ⟨r1, h, h1, h2, h3⟩

/-! ## Claims on the shape of `generateNextAnnounce` -/

/-- C17. With total size 1000, piece size 10, initial downloaded and uploaded
0, download speed 100, upload speed 0 and a `Round` that returns its arguments
unchanged, once `firstAnnounce` has returned a state with announce interval 10,
`generateNextAnnounce` succeeds for every generator and appends an entry with
`Downloaded = 1000`, `Left = 0` and `Uploaded = 0`; the jitter is in 1..9 and
the unclamped download candidate `0 + 100*10 + 10*k` exceeds 1000. -/
theorem clamp_scenario (r r1 : RatioSpoof) (g : Rand)
    (hT : r.TorrentInfo.TotalSize = 1000) (hP : r.TorrentInfo.PieceSize = 10)
    (hID : r.Input.InitialDownloaded = 0) (hIU : r.Input.InitialUploaded = 0)
    (hDS : r.Input.DownloadSpeed = 100) (hUS : r.Input.UploadSpeed = 0)
    (hRound : ∀ d u l p, r.BitTorrentClient.Round d u l p = (d, u, l))
    (h1 : firstAnnounce r = .ok r1) (hI : r1.AnnounceInterval = 10) :
    ∃ r2 g2 s, generateNextAnnounce r1 g = .ok (r2, g2) ∧
      r2.AnnounceHistory = r1.AnnounceHistory.pushValueHistory s ∧
      s.Downloaded = 1000 ∧ s.Left = 0 ∧ s.Uploaded = 0 ∧
      1 ≤ randomPieces g ∧ randomPieces g ≤ 9 ∧
      (0 : Int) + 100 * 10 + 10 * randomPieces g > 1000 := by
  obtain ⟨hh1, _⟩ := firstAnnounce_inv r r1 h1
  obtain ⟨hti, hin, hcl⟩ := firstAnnounce_setting r r1 h1
  have hb : r1.AnnounceHistory.Back = some
      { Count := r.AnnounceCount + 1
        Downloaded := r.Input.InitialDownloaded
        Uploaded := r.Input.InitialUploaded
        Left := r.TorrentInfo.TotalSize - r.Input.InitialDownloaded } := by
    rw [hh1]; exact Back_pushValueHistory _ _
  obtain ⟨r2, g2, s, e, _, hpush, _, hd, hu, hl, _⟩ :=
    generateNextAnnounce_plain_step r1 g _ hb (by rw [hcl]; exact hRound)
  have hk1 := randomPieces_ge g
  have hk9 := randomPieces_le g
  have hdc : (downloadCandidate r1
      { Count := r.AnnounceCount + 1
        Downloaded := r.Input.InitialDownloaded
        Uploaded := r.Input.InitialUploaded
        Left := r.TorrentInfo.TotalSize - r.Input.InitialDownloaded } g) = (1000, (g.Intn (10 - 1)).2) := by
    unfold downloadCandidate
    simp only [hti, hin, hT, hP, hID, hDS, hI]
    rw [if_pos (by decide)]
    have h2 := calculateNextTotalSizeByte_fst g 100 0 10 10 1000 (by decide)
    have h3 := calculateNextTotalSizeByte_snd g 100 0 10 10 1000 (by decide)
    rw [if_pos ⟨by decide, by omega⟩] at h2
    exact Prod.ext h2 h3
  have huc : (uploadCandidate r1
      { Count := r.AnnounceCount + 1
        Downloaded := r.Input.InitialDownloaded
        Uploaded := r.Input.InitialUploaded
        Left := r.TorrentInfo.TotalSize - r.Input.InitialDownloaded }
      (g.Intn (10 - 1)).2).1 = 0 := by
    unfold uploadCandidate
    simp only [hin, hUS, hIU]
    rw [calculateNextTotalSizeByte_zero]
  rw [hdc] at hd hu hl
  refine ⟨r2, g2, s, e, hpush, hd, ?_, ?_, hk1, hk9, by omega⟩
  · rw [hl, hti, hT]; rfl
  · rw [hu]; exact huc

/-- C17 witness: the scenario session, whose tracker answers the first announce
with interval 10, and jitter 5. -/
theorem clamp_scenario_witness :
    ∃ r1, firstAnnounce scenarioSession = .ok r1 ∧ r1.AnnounceInterval = 10 ∧
      ∃ r2 g2 s, generateNextAnnounce r1 fixedRand = .ok (r2, g2) ∧
        r2.AnnounceHistory = r1.AnnounceHistory.pushValueHistory s ∧
        s.Downloaded = 1000 ∧ s.Left = 0 ∧ s.Uploaded = 0 := by
  refine ⟨_, rfl, rfl, ?_⟩
  obtain ⟨r2, g2, s, h, hh, hd, hl, hu, _⟩ :=
    clamp_scenario scenarioSession _ fixedRand rfl rfl rfl rfl rfl rfl (fun _ _ _ _ => rfl)
      rfl rfl
  exact ⟨r2, g2, s, h, hh, hd, hl, hu⟩

/-! ## Claims on what follows a shutdown -/

/-- C12 (as amended). In a state returned by `gracefullyExit` the status is
"stopped", `NumWant` is 0 and `gracefullyExit` itself has appended nothing
(`AnnounceHistory` and `AnnounceCount` are those before the call); a subsequent
`generateNextAnnounce` is not rejected: for every generator it succeeds, appends
exactly one entry and increases `AnnounceCount` by one, leaving `Status` at
"stopped" and `NumWant` at 0. -/
theorem generateNextAnnounce_after_exit (r r1 : RatioSpoof) (g : Rand)
    (h : gracefullyExit r = .ok r1) :
    r1.Status = "stopped" ∧ r1.NumWant = 0 ∧
    r1.AnnounceHistory = r.AnnounceHistory ∧ r1.AnnounceCount = r.AnnounceCount ∧
    ∃ r2 g2 s, generateNextAnnounce r1 g = .ok (r2, g2) ∧
      r2.AnnounceHistory = r1.AnnounceHistory.pushValueHistory s ∧
      r2.AnnounceHistory.Back = some s ∧
      r2.AnnounceCount = r1.AnnounceCount + 1 ∧
      r2.Status = "stopped" ∧ r2.NumWant = 0 := by
  obtain ⟨last, hb, hh, hc, hs, hn, _⟩ := gracefullyExit_inv r r1 h
  refine ⟨hs, hn, hh, hc, ?_⟩
  have hb1 : r1.AnnounceHistory.Back = some last := by rw [hh]; exact hb
  have e := generateNextAnnounce_ok r1 g last hb1
  obtain ⟨_, s, _, hpush, hback, _, hcount, hs2, hn2, _⟩ :=
    generateNextAnnounce_inv r1 g _ _ e
  exact ⟨_, _, s, e, hpush, hback, hcount, hs2.trans hs, hn2.trans hn⟩

/-- C12 witness: shutting down the sample session and then calling
`generateNextAnnounce` once more. -/
theorem generateNextAnnounce_after_exit_witness :
    ∃ r1, gracefullyExit sampleSession = .ok r1 ∧
      ∃ r2 g2 s, generateNextAnnounce r1 fixedRand = .ok (r2, g2) ∧
        r2.AnnounceHistory = r1.AnnounceHistory.pushValueHistory s ∧
        r2.AnnounceCount = r1.AnnounceCount + 1 := by
  refine ⟨_, rfl, ?_⟩
  obtain ⟨_, _, _, _, r2, g2, s, e, hpush, _, hcount, _⟩ :=
    generateNextAnnounce_after_exit sampleSession _ fixedRand rfl
  exact ⟨r2, g2, s, e, hpush, hcount⟩

/-- C12 counterexample: after `gracefullyExit` on the sample session (status
"stopped", `NumWant` 0, one entry, `AnnounceCount` 1), `generateNextAnnounce`
returns a state with `AnnounceCount = 2` and a second entry in the history. -/
theorem generateNextAnnounce_after_exit_appends :
    (gracefullyExit sampleSession).toOption.map
        (fun r1 => (r1.Status, r1.NumWant, r1.AnnounceCount, r1.AnnounceHistory))
      = some ("stopped", 0, 1, [{ Count := 1, Downloaded := 0, Uploaded := 0, Left := 1000 }]) ∧
    (gracefullyExit sampleSession).toOption.bind
        (fun r1 => (generateNextAnnounce r1 fixedRand).toOption.map
          (fun p => (p.1.Status, p.1.NumWant, p.1.AnnounceCount, p.1.AnnounceHistory)))
      = some ("stopped", 0, 2,
          [{ Count := 1, Downloaded := 0, Uploaded := 0, Left := 1000 },
           { Count := 2, Downloaded := 1000, Uploaded := 90050, Left := 0 }]) := by
  decide

/-! ## Runs of the session -/

theorem applyStep_generate_inv (r : RatioSpoof) (g : Rand) (r1 : RatioSpoof)
    (h : applyStep r (.generateNextAnnounce g) = .ok r1) :
    ∃ g1, generateNextAnnounce r g = .ok (r1, g1) := by
  simp only [applyStep] at h
  cases hg : generateNextAnnounce r g with
  | error e => rw [hg] at h; exact Except.noConfusion h
  | ok p =>
    obtain ⟨r2, g2⟩ := p
    rw [hg] at h
    simp only [Except.ok.injEq] at h
    subst h
    exact ⟨g2, rfl⟩

theorem applyStep_fire_inv (r : RatioSpoof) (retry : Bool) (r1 : RatioSpoof)
    (h : applyStep r (.fireAnnounce retry) = .ok r1) :
    ∃ e, fireAnnounce r retry = .ok (r1, e) := by
  simp only [applyStep] at h
  cases hg : fireAnnounce r retry with
  | error e => rw [hg] at h; exact Except.noConfusion h
  | ok p =>
    obtain ⟨r2, e2⟩ := p
    rw [hg] at h
    simp only [Except.ok.injEq] at h
    subst h
    exact ⟨e2, rfl⟩

theorem applySteps_invariant (P : RatioSpoof → Prop) (allowed : Step → Prop)
    (hstep : ∀ r s r1, P r → allowed s → applyStep r s = .ok r1 → P r1) :
    ∀ (steps : List Step) (r r1 : RatioSpoof), P r → (∀ s ∈ steps, allowed s) →
      applySteps r steps = .ok r1 → P r1 := by
  intro steps
  induction steps with
  | nil =>
    intro r r1 hP _ h
    simp only [applySteps, Except.ok.injEq] at h
    subst h
    exact hP
  | cons s rest ih =>
    intro r r1 hP hall h
    rw [applySteps] at h
    cases hs : applyStep r s with
    | error e => rw [hs] at h; exact Except.noConfusion h
    | ok r2 =>
      rw [hs] at h
      exact ih r2 r1 (hstep r s r2 hP (hall s (List.mem_cons_self _ _)) hs)
        (fun t ht => hall t (List.mem_cons_of_mem _ ht)) h

theorem session_invariant (P : RatioSpoof → Prop) (allowed : Step → Prop) (r0 : RatioSpoof)
    (hfirst : ∀ r1, firstAnnounce r0 = .ok r1 → P r1)
    (hstep : ∀ r s r1, P r → allowed s → applyStep r s = .ok r1 → P r1)
    (steps : List Step) (r : RatioSpoof) (hall : ∀ s ∈ steps, allowed s)
    (h : session r0 steps = .ok r) : P r := by
  unfold session at h
  cases hf : firstAnnounce r0 with
  | error e => rw [hf] at h; exact Except.noConfusion h
  | ok r1 =>
    rw [hf] at h
    exact applySteps_invariant P allowed hstep steps r1 r (hfirst r1 hf) hall h

theorem retainedCounts_facts (c : Nat) (hc : 1 ≤ c) :
    (retainedCounts c).length = min c 10 ∧
    (retainedCounts c).head? = some (Int.ofNat (c + 1 - min c 10)) ∧
    (retainedCounts c).getLast? = some (Int.ofNat c) := by
  unfold retainedCounts consecutiveCounts maxAnnounceHistory
  obtain ⟨k, hk⟩ : ∃ k, min c 10 = k + 1 := ⟨min c 10 - 1, by omega⟩
  rw [hk]
  refine ⟨by simp, ?_, ?_⟩
  · rw [List.range'_succ]; rfl
  · rw [List.range'_1_concat, List.map_append, List.map_singleton, List.getLast?_concat]
    have e : c + 1 - (k + 1) + k = c := by omega
    rw [e]

theorem latest_entry_invariant (r0 : RatioSpoof) (steps : List Step) (r : RatioSpoof)
    (h : session r0 steps = .ok r) :
    ∃ s, r.AnnounceHistory.Back = some s ∧ s.Count = r.AnnounceCount := by
  refine session_invariant
    (fun a => ∃ s, a.AnnounceHistory.Back = some s ∧ s.Count = a.AnnounceCount)
    (fun _ => True) r0 ?_ ?_ steps r (fun _ _ => trivial) h
  · intro r1 h1
    obtain ⟨hh, hc, _⟩ := firstAnnounce_inv r0 r1 h1
    exact ⟨_, by rw [hh]; exact Back_pushValueHistory _ _, hc.symm⟩
  · intro a s a1 hP _ hs
    obtain ⟨l, hb, hl⟩ := hP
    cases s with
    | generateNextAnnounce g =>
      obtain ⟨g1, hg⟩ := applyStep_generate_inv a g a1 hs
      obtain ⟨_, v, _, _, hback, hv, hc, _⟩ := generateNextAnnounce_inv a g a1 g1 hg
      exact ⟨v, hback, hv.trans hc.symm⟩
    | fireAnnounce retry =>
      obtain ⟨e, hf⟩ := applyStep_fire_inv a retry a1 hs
      obtain ⟨_, _, _, hh, hc, _⟩ := fireAnnounce_inv a retry a1 e hf
      exact ⟨l, by rw [hh]; exact hb, by rw [hc]; exact hl⟩
    | gracefullyExit =>
      obtain ⟨_, _, hh, hc, _⟩ := gracefullyExit_inv a a1 hs
      exact ⟨l, by rw [hh]; exact hb, by rw [hc]; exact hl⟩

theorem fireAnnounce_no_panic (r : RatioSpoof) (retry : Bool) (last : Announce)
    (hlast : r.AnnounceHistory.Back = some last) :
    fireAnnounce r retry ≠ .error .emptyHistoryPanic := by
  rw [fireAnnounce_eq r retry last hlast]
  cases r.Tracker.answers r.Tracker.sent.length with
  | err => simp
  | resp t => cases t <;> simp

/-! ## Claims on runs of the session -/

/-- C16. In every state reached by `firstAnnounce` followed by any sequence of
`generateNextAnnounce`, `fireAnnounce` and `gracefullyExit` calls (from a fresh
session or any other), `AnnounceHistory` is non-empty and its back entry is the
latest appended one (its `Count` is `AnnounceCount`), so `fireAnnounce` does not
panic and `generateNextAnnounce` succeeds there; `pushValueHistory` always
leaves the pushed value at the back; on an empty history both `fireAnnounce`
and `generateNextAnnounce` fail with the empty-history panic. -/
theorem history_never_empty (r0 : RatioSpoof) (steps : List Step) (r : RatioSpoof)
    (h : session r0 steps = .ok r) :
    r.AnnounceHistory ≠ [] ∧
    (∃ s, r.AnnounceHistory.Back = some s ∧ s.Count = r.AnnounceCount) ∧
    (∀ retry, fireAnnounce r retry ≠ .error .emptyHistoryPanic) ∧
    (∀ g, ∃ r1 g1, generateNextAnnounce r g = .ok (r1, g1)) ∧
    (∀ (a : announceHistory) (value : Announce), (a.pushValueHistory value).Back = some value) ∧
    (∀ r2 : RatioSpoof, r2.AnnounceHistory = [] →
      r2.AnnounceHistory.Back = none ∧
      (∀ retry, fireAnnounce r2 retry = .error .emptyHistoryPanic) ∧
      (∀ g, generateNextAnnounce r2 g = .error .emptyHistoryPanic)) := by
  obtain ⟨s, hb, hs⟩ := latest_entry_invariant r0 steps r h
  refine ⟨ne_nil_of_Back _ s hb, ⟨s, hb, hs⟩, fun retry => fireAnnounce_no_panic r retry s hb,
    fun g => ⟨_, _, generateNextAnnounce_ok r g s hb⟩, Back_pushValueHistory, ?_⟩
  intro r2 hempty
  exact ⟨by rw [hempty]; rfl, fun retry => fireAnnounce_empty r2 retry hempty,
    fun g => generateNextAnnounce_empty r2 g hempty⟩

/-- C16 witness: the fresh session after its first announce, twelve periodic
rounds and the shutdown. -/
theorem history_never_empty_witness :
    ∃ r, session freshSession fullRun = .ok r ∧ r.AnnounceHistory ≠ [] ∧
      ∃ s, r.AnnounceHistory.Back = some s ∧ s.Count = r.AnnounceCount :=
  ⟨_, rfl, (history_never_empty freshSession fullRun _ rfl).1,
    (history_never_empty freshSession fullRun _ rfl).2.1⟩

/-- C18. From a session with `Status = "started"` and `NumWant = 200` (as
`NewRatioSpoofState` builds it), in every state reached by `firstAnnounce` and
any sequence of `generateNextAnnounce` and `fireAnnounce` calls without
`gracefullyExit`, `Status` is "started" and `NumWant` is 200, and every query
sent during the run carries event "started" and numwant 200.
`generateNextAnnounce`, `fireAnnounce` and `firstAnnounce` never change
`Status`; `gracefullyExit` sets it to "stopped". -/
theorem status_stays_started (r0 : RatioSpoof) (steps : List Step) (r : RatioSpoof)
    (hs0 : r0.Status = "started") (hn0 : r0.NumWant = 200)
    (hno : ∀ s ∈ steps, s.isGracefullyExit = false)
    (h : session r0 steps = .ok r) :
    r.Status = "started" ∧ r.NumWant = 200 ∧
    (∃ qs, r.Tracker.sent = r0.Tracker.sent ++ qs ∧
      ∀ q ∈ qs, q.event = "started" ∧ q.numwant = 200) ∧
    (∀ (a : RatioSpoof) (g : Rand) (a1 : RatioSpoof) (g1 : Rand),
      generateNextAnnounce a g = .ok (a1, g1) → a1.Status = a.Status) ∧
    (∀ (a : RatioSpoof) (retry : Bool) (a1 : RatioSpoof) (e : Option String),
      fireAnnounce a retry = .ok (a1, e) → a1.Status = a.Status) ∧
    (∀ a a1 : RatioSpoof, firstAnnounce a = .ok a1 → a1.Status = a.Status) ∧
    (∀ a a1 : RatioSpoof, gracefullyExit a = .ok a1 → a1.Status = "stopped") := by
  have hinv := session_invariant
    (fun a => a.Status = "started" ∧ a.NumWant = 200 ∧
      ∃ qs, a.Tracker.sent = r0.Tracker.sent ++ qs ∧
        ∀ q ∈ qs, q.event = "started" ∧ q.numwant = 200)
    (fun s => s.isGracefullyExit = false) r0
    (fun r1 h1 => by
      obtain ⟨_, _, hs, hn, hq⟩ := firstAnnounce_inv r0 r1 h1
      refine ⟨hs.trans hs0, hn.trans hn0, _, hq, ?_⟩
      intro q hq1
      rw [List.mem_singleton] at hq1
      subst hq1
      exact ⟨hs0, hn0⟩)
    (fun a s a1 hP hallow hs => by
      obtain ⟨hst, hnw, qs, hsent, hqs⟩ := hP
      cases s with
      | generateNextAnnounce g =>
        obtain ⟨g1, hg⟩ := applyStep_generate_inv a g a1 hs
        obtain ⟨_, _, _, _, _, _, _, hs1, hn1, ht1⟩ := generateNextAnnounce_inv a g a1 g1 hg
        exact ⟨hs1.trans hst, hn1.trans hnw, qs, by rw [ht1]; exact hsent, hqs⟩
      | fireAnnounce retry =>
        obtain ⟨e, hf⟩ := applyStep_fire_inv a retry a1 hs
        obtain ⟨_, l, _, _, _, hs1, hn1, hq1⟩ := fireAnnounce_inv a retry a1 e hf
        refine ⟨hs1.trans hst, hn1.trans hnw,
          qs ++ [{ port := a.Input.Port
                   uploaded := l.Uploaded
                   downloaded := l.Downloaded
                   left := l.Left
                   event := a.Status
                   numwant := a.NumWant
                   retry := retry }], ?_, ?_⟩
        · rw [hq1, hsent, List.append_assoc]
        · intro q hq
          rw [List.mem_append, List.mem_singleton] at hq
          cases hq with
          | inl hl => exact hqs q hl
          | inr hr => subst hr; exact ⟨hst, hnw⟩
      | gracefullyExit => exact absurd hallow (by decide))
    steps r hno h
  refine ⟨hinv.1, hinv.2.1, hinv.2.2, ?_, ?_, ?_, ?_⟩
  · intro a g a1 g1 hg
    obtain ⟨_, _, _, _, _, _, _, hs1, _⟩ := generateNextAnnounce_inv a g a1 g1 hg
    exact hs1
  · intro a retry a1 e hf
    obtain ⟨_, _, _, _, _, hs1, _⟩ := fireAnnounce_inv a retry a1 e hf
    exact hs1
  · intro a a1 hf
    exact (firstAnnounce_inv a a1 hf).2.2.1
  · intro a a1 hx
    obtain ⟨_, _, _, _, hs1, _⟩ := gracefullyExit_inv a a1 hx
    exact hs1

/-- C18 witness: the fresh session after its first announce and twelve periodic
rounds. -/
theorem status_stays_started_witness :
    ∃ r, session freshSession periodicRun = .ok r ∧ r.Status = "started" ∧ r.NumWant = 200 ∧
      ∃ qs, r.Tracker.sent = freshSession.Tracker.sent ++ qs ∧
        ∀ q ∈ qs, q.event = "started" ∧ q.numwant = 200 :=
  ⟨_, rfl, (status_stays_started freshSession periodicRun _ rfl rfl (by decide) rfl).1,
    (status_stays_started freshSession periodicRun _ rfl rfl (by decide) rfl).2.1,
    (status_stays_started freshSession periodicRun _ rfl rfl (by decide) rfl).2.2.1⟩

/-- C19. From a session with `AnnounceCount = 0` and an empty history, in every
state reached by `firstAnnounce` followed by any sequence of
`generateNextAnnounce`, `fireAnnounce` and `gracefullyExit` calls, the latest
entry's `Count` equals `AnnounceCount`, the history length equals
`min AnnounceCount 10`, the oldest retained entry has
`Count = AnnounceCount - length + 1`, and the Counts held are the last
`min AnnounceCount 10` of `1..AnnounceCount`. -/
theorem counter_history_agree (r0 : RatioSpoof) (steps : List Step) (r : RatioSpoof)
    (hc0 : r0.AnnounceCount = 0) (hh0 : r0.AnnounceHistory = [])
    (h : session r0 steps = .ok r) :
    (∃ s, r.AnnounceHistory.Back = some s ∧ s.Count = r.AnnounceCount) ∧
    (r.AnnounceHistory.Len : Int) = min r.AnnounceCount 10 ∧
    (∃ o, r.AnnounceHistory.head? = some o ∧
      o.Count = r.AnnounceCount - (r.AnnounceHistory.Len : Int) + 1) ∧
    (∃ c : Nat, 1 ≤ c ∧ r.AnnounceCount = Int.ofNat c ∧
      r.AnnounceHistory.map Announce.Count = retainedCounts c) := by
  have hinv := session_invariant
    (fun a => ∃ c : Nat, 1 ≤ c ∧ a.AnnounceCount = Int.ofNat c ∧
      a.AnnounceHistory.map Announce.Count = retainedCounts c)
    (fun _ => True) r0
    (fun r1 h1 => by
      obtain ⟨hh, hc, _⟩ := firstAnnounce_inv r0 r1 h1
      refine ⟨1, le_refl _, by rw [hc, hc0]; rfl, ?_⟩
      rw [hh, hh0, hc0]
      rfl)
    (fun a s a1 hP _ hs => by
      obtain ⟨c, hc1, hc, hm⟩ := hP
      cases s with
      | generateNextAnnounce g =>
        obtain ⟨g1, hg⟩ := applyStep_generate_inv a g a1 hs
        obtain ⟨last, _, hb, _⟩ := generateNextAnnounce_inv a g a1 g1 hg
        obtain ⟨a2, g2, _, hg2, _, _, hc2, hm2⟩ :=
          generateNextAnnounce_counts a g c last hb hc hm
        rw [hg] at hg2
        simp only [Except.ok.injEq, Prod.mk.injEq] at hg2
        obtain ⟨e1, _⟩ := hg2
        subst e1
        exact ⟨c + 1, Nat.le_add_left 1 c, hc2, hm2⟩
      | fireAnnounce retry =>
        obtain ⟨e, hf⟩ := applyStep_fire_inv a retry a1 hs
        obtain ⟨_, _, _, hh, hcc, _⟩ := fireAnnounce_inv a retry a1 e hf
        exact ⟨c, hc1, by rw [hcc]; exact hc, by rw [hh]; exact hm⟩
      | gracefullyExit =>
        obtain ⟨_, _, hh, hcc, _⟩ := gracefullyExit_inv a a1 hs
        exact ⟨c, hc1, by rw [hcc]; exact hc, by rw [hh]; exact hm⟩)
    steps r (fun _ _ => trivial) h
  obtain ⟨c, hc1, hc, hm⟩ := hinv
  obtain ⟨hlen, hhead, _⟩ := retainedCounts_facts c hc1
  have hl : r.AnnounceHistory.length = min c 10 := by
    rw [← hlen, ← hm, List.length_map]
  have hci : r.AnnounceCount = (c : Int) := hc
  refine ⟨latest_entry_invariant r0 steps r h, ?_, ?_, c, hc1, hc, hm⟩
  · unfold announceHistory.Len
    rw [hl, hci]
    omega
  · rw [← hm, List.head?_map] at hhead
    cases ho : r.AnnounceHistory.head? with
    | none => rw [ho] at hhead; exact Option.noConfusion hhead
    | some o =>
      rw [ho] at hhead
      simp only [Option.map_some', Option.some.injEq] at hhead
      refine ⟨o, rfl, ?_⟩
      unfold announceHistory.Len
      rw [hhead, hl, hci]
      show ((c + 1 - min c 10 : Nat) : Int) = (c : Int) - ((min c 10 : Nat) : Int) + 1
      omega

/-- C19 witness: the fresh session after its first announce, twelve periodic
rounds and the shutdown has `AnnounceCount = 13` and ten entries, the oldest
with `Count = 4`. -/
theorem counter_history_agree_witness :
    ∃ r, session freshSession fullRun = .ok r ∧ r.AnnounceCount = 13 ∧
      (r.AnnounceHistory.Len : Int) = min r.AnnounceCount 10 ∧
      ∃ o, r.AnnounceHistory.head? = some o ∧
        o.Count = r.AnnounceCount - (r.AnnounceHistory.Len : Int) + 1 :=
  ⟨_, rfl, by decide, (counter_history_agree freshSession fullRun _ rfl rfl rfl).2.1,
    (counter_history_agree freshSession fullRun _ rfl rfl rfl).2.2.1⟩

/-! ## The traffic model in 64-bit arithmetic -/

theorem wrapInt64_of_inInt64 (x : Int) (h : inInt64 x) : wrapInt64 x = x := by
  obtain ⟨h1, h2⟩ := h
  unfold wrapInt64
  unfold int64Bound at *
  omega

theorem totalCandidate64_of_fits (speed current piece seconds k : Int)
    (h : candidateFits speed current piece seconds k) :
    totalCandidate64 speed current piece seconds k = current + speed * seconds + piece * k := by
  obtain ⟨h1, h2, h3, h4⟩ := h
  unfold totalCandidate64
  rw [wrapInt64_of_inInt64 _ h1, wrapInt64_of_inInt64 _ h2, wrapInt64_of_inInt64 _ h3,
    wrapInt64_of_inInt64 _ h4]

theorem calculateNextTotalSizeByte64_zero (g : Rand) (currentByte pieceSizeByte seconds
    limitTotalBytes : Int) :
    calculateNextTotalSizeByte64 g 0 currentByte pieceSizeByte seconds limitTotalBytes
      = (currentByte, g) := by
  simp [calculateNextTotalSizeByte64]

theorem calculateNextTotalSizeByte64_fst (g : Rand) (speed current piece seconds limit : Int)
    (hs : speed ≠ 0) :
    (calculateNextTotalSizeByte64 g speed current piece seconds limit).1
      = if limit ≠ 0 ∧ totalCandidate64 speed current piece seconds (randomPieces g) > limit
        then limit
        else totalCandidate64 speed current piece seconds (randomPieces g) := by
  unfold calculateNextTotalSizeByte64 totalCandidate64 randomPieces
  simp only [hs, if_false]
  split_ifs <;> rfl

theorem calculateNextTotalSizeByte64_snd (g : Rand) (speed current piece seconds limit : Int)
    (hs : speed ≠ 0) :
    (calculateNextTotalSizeByte64 g speed current piece seconds limit).2
      = (g.Intn (10 - 1)).2 := by
  unfold calculateNextTotalSizeByte64
  simp only [hs, if_false]
  split_ifs <;> rfl

theorem calculateNextTotalSizeByte64_of_fits (g : Rand)
    (speed current piece seconds limit : Int)
    (h : candidateFits speed current piece seconds (randomPieces g)) :
    calculateNextTotalSizeByte64 g speed current piece seconds limit
      = calculateNextTotalSizeByte g speed current piece seconds limit := by
  by_cases hs : speed = 0
  · rw [hs, calculateNextTotalSizeByte64_zero, calculateNextTotalSizeByte_zero]
  · refine Prod.ext ?_ ?_
    · rw [calculateNextTotalSizeByte64_fst _ _ _ _ _ _ hs,
        calculateNextTotalSizeByte_fst _ _ _ _ _ _ hs, totalCandidate64_of_fits _ _ _ _ _ h]
    · rw [calculateNextTotalSizeByte64_snd _ _ _ _ _ _ hs,
        calculateNextTotalSizeByte_snd _ _ _ _ _ _ hs]

/-! ## Claims on `calculateNextTotalSizeByte` with a nonzero speed -/

/-- C4 (as amended). With a nonzero speed and a nonzero upper bound, the jitter
`k` is between 1 and 9 and the result of `calculateNextTotalSizeByte` never
exceeds the upper bound.  Provided no product or sum in
`current + speed*seconds + piece*k` leaves the 64-bit range, the result is the
minimum of that candidate and the upper bound, it is the upper bound whenever
the candidate exceeds it, and it equals the upper bound exactly when the
candidate is at least the upper bound. -/
theorem calculateNextTotalSizeByte64_clamp (g : Rand)
    (speed current piece seconds upperBound : Int)
    (hs : speed ≠ 0) (hu : upperBound ≠ 0) :
    1 ≤ randomPieces g ∧ randomPieces g ≤ 9 ∧
    (calculateNextTotalSizeByte64 g speed current piece seconds upperBound).1 ≤ upperBound ∧
    (calculateNextTotalSizeByte64 g speed current piece seconds upperBound).1
      = min (totalCandidate64 speed current piece seconds (randomPieces g)) upperBound ∧
    (candidateFits speed current piece seconds (randomPieces g) →
      (calculateNextTotalSizeByte64 g speed current piece seconds upperBound).1
        = min (current + speed * seconds + piece * randomPieces g) upperBound ∧
      (current + speed * seconds + piece * randomPieces g > upperBound →
        (calculateNextTotalSizeByte64 g speed current piece seconds upperBound).1
          = upperBound) ∧
      ((calculateNextTotalSizeByte64 g speed current piece seconds upperBound).1 = upperBound ↔
        current + speed * seconds + piece * randomPieces g ≥ upperBound)) := by
  have key : ∀ c : Int, (if upperBound ≠ 0 ∧ c > upperBound then upperBound else c)
      = min c upperBound := by
    intro c
    by_cases hc : c > upperBound
    · rw [if_pos ⟨hu, hc⟩, min_eq_right (le_of_lt hc)]
    · rw [if_neg (fun h => hc h.2), min_eq_left (not_lt.mp hc)]
  rw [calculateNextTotalSizeByte64_fst g speed current piece seconds upperBound hs, key]
  refine ⟨randomPieces_ge g, randomPieces_le g, min_le_right _ _, rfl, ?_⟩
  intro hfit
  rw [totalCandidate64_of_fits _ _ _ _ _ hfit]
  refine ⟨rfl, fun h => min_eq_right (le_of_lt h), ?_⟩
  exact ⟨fun h => by rw [← h]; exact min_le_left _ _, fun h => min_eq_right h⟩

/-- C4 witness: speed 100, 10 seconds, piece size 10, jitter 5, upper bound
1000: the candidate 1050 fits and the result is 1000. -/
theorem calculateNextTotalSizeByte64_clamp_witness :
    (calculateNextTotalSizeByte64 fixedRand 100 0 10 10 1000).1 ≤ 1000 ∧
    (calculateNextTotalSizeByte64 fixedRand 100 0 10 10 1000).1
      = min (0 + 100 * 10 + 10 * randomPieces fixedRand) 1000 ∧
    (calculateNextTotalSizeByte64 fixedRand 100 0 10 10 1000).1 = 1000 :=
  ⟨(calculateNextTotalSizeByte64_clamp fixedRand 100 0 10 10 1000
      (by decide) (by decide)).2.2.1,
   ((calculateNextTotalSizeByte64_clamp fixedRand 100 0 10 10 1000
      (by decide) (by decide)).2.2.2.2 (by decide)).1,
   by decide⟩

/-- C4 counterexample, two inputs.  With speed 1, 9 seconds, piece size 1,
jitter 1 and upper bound 10 the candidate is exactly 10: the result equals the
upper bound although the candidate does not exceed it.  With speed `2^62`, 2
seconds, piece size 10, jitter 5 and upper bound 1000 the product wraps around:
the result is `-2^63 + 50`, not the minimum of `2^63 + 50` and 1000. -/
theorem calculateNextTotalSizeByte64_clamp_fails :
    ((1 : Int) ≠ 0 ∧ (10 : Int) ≠ 0 ∧ randomPieces ⟨fun _ => 0, 0⟩ = 1 ∧
      (calculateNextTotalSizeByte64 ⟨fun _ => 0, 0⟩ 1 0 1 9 10).1 = 10 ∧
      ¬ ((0 : Int) + 1 * 9 + 1 * randomPieces ⟨fun _ => 0, 0⟩ > 10)) ∧
    ((4611686018427387904 : Int) ≠ 0 ∧ (1000 : Int) ≠ 0 ∧ randomPieces fixedRand = 5 ∧
      inInt64 4611686018427387904 ∧
      (calculateNextTotalSizeByte64 fixedRand 4611686018427387904 0 10 2 1000).1
        = -9223372036854775758 ∧
      min ((0 : Int) + 4611686018427387904 * 2 + 10 * randomPieces fixedRand) 1000 = 1000) := by
  decide

/-- C5 (as amended). With a nonzero speed and upper bound 0,
`calculateNextTotalSizeByte` returns the 64-bit value of
`current + speed*seconds + piece*k`, where `k` is the jitter draw
`rand.Intn(10-1)+1`; provided no product or sum in it leaves the 64-bit range,
that is `current + speed*seconds + piece*k` itself.  The draw always lies in
1..9, and each of 1..9 is drawn by some generator. -/
theorem calculateNextTotalSizeByte64_unbounded (g : Rand)
    (speed current piece seconds : Int) (hs : speed ≠ 0) :
    (calculateNextTotalSizeByte64 g speed current piece seconds 0).1
      = totalCandidate64 speed current piece seconds (randomPieces g) ∧
    (candidateFits speed current piece seconds (randomPieces g) →
      (calculateNextTotalSizeByte64 g speed current piece seconds 0).1
        = current + speed * seconds + piece * randomPieces g) ∧
    (∀ g1 : Rand, 1 ≤ randomPieces g1 ∧ randomPieces g1 ≤ 9) ∧
    (∀ k : Int, 1 ≤ k → k ≤ 9 → ∃ g1 : Rand, randomPieces g1 = k) := by
  have h : (calculateNextTotalSizeByte64 g speed current piece seconds 0).1
      = totalCandidate64 speed current piece seconds (randomPieces g) := by
    rw [calculateNextTotalSizeByte64_fst g speed current piece seconds 0 hs]
    simp
  refine ⟨h, fun hfit => ?_, fun g1 => ⟨randomPieces_ge g1, randomPieces_le g1⟩,
    randomPieces_attained⟩
  rw [h, totalCandidate64_of_fits _ _ _ _ _ hfit]

/-- C5 witness: speed 100, current 50, piece size 10, 10 seconds, raw draw 4
(jitter 5) gives 50 + 1000 + 50. -/
theorem calculateNextTotalSizeByte64_unbounded_witness :
    (calculateNextTotalSizeByte64 fixedRand 100 50 10 10 0).1
      = 50 + 100 * 10 + 10 * randomPieces fixedRand ∧
    (calculateNextTotalSizeByte64 fixedRand 100 50 10 10 0).1 = 1100 :=
  ⟨(calculateNextTotalSizeByte64_unbounded fixedRand 100 50 10 10 (by decide)).2.1
      (by decide),
   by decide⟩

/-- C5 counterexample: with speed `2^62`, 2 seconds, current 0, piece size 1,
jitter 5 and upper bound 0 the product wraps around and the result is
`-2^63 + 5`, not `0 + 2^62*2 + 1*5`. -/
theorem calculateNextTotalSizeByte64_unbounded_wraps :
    (4611686018427387904 : Int) ≠ 0 ∧ inInt64 4611686018427387904 ∧
    randomPieces fixedRand = 5 ∧
    (calculateNextTotalSizeByte64 fixedRand 4611686018427387904 0 1 2 0).1
      = -9223372036854775803 ∧
    (calculateNextTotalSizeByte64 fixedRand 4611686018427387904 0 1 2 0).1
      ≠ 0 + 4611686018427387904 * 2 + 1 * randomPieces fixedRand := by
  decide

/-! ## `generateNextAnnounce` in 64-bit arithmetic -/

theorem addAnnounce64_Back (r : RatioSpoof) (d u l : Int) :
    (addAnnounce64 r d u l).AnnounceHistory.Back
      = some { Count := wrapInt64 (r.AnnounceCount + 1)
               Downloaded := d, Uploaded := u, Left := l } := by
  unfold addAnnounce64
  exact Back_pushValueHistory _ _

theorem generateNextAnnounce64_ok (r : RatioSpoof) (g : Rand) (last : Announce)
    (hlast : r.AnnounceHistory.Back = some last) :
    generateNextAnnounce64 r g =
      .ok (addAnnounce64 r
            (r.BitTorrentClient.Round (downloadCandidate64 r last g).1
              (uploadCandidate64 r last (downloadCandidate64 r last g).2).1
              (calculateBytesLeft64 (downloadCandidate64 r last g).1 r.TorrentInfo.TotalSize)
              r.TorrentInfo.PieceSize).1
            (r.BitTorrentClient.Round (downloadCandidate64 r last g).1
              (uploadCandidate64 r last (downloadCandidate64 r last g).2).1
              (calculateBytesLeft64 (downloadCandidate64 r last g).1 r.TorrentInfo.TotalSize)
              r.TorrentInfo.PieceSize).2.1
            (r.BitTorrentClient.Round (downloadCandidate64 r last g).1
              (uploadCandidate64 r last (downloadCandidate64 r last g).2).1
              (calculateBytesLeft64 (downloadCandidate64 r last g).1 r.TorrentInfo.TotalSize)
              r.TorrentInfo.PieceSize).2.2,
          (uploadCandidate64 r last (downloadCandidate64 r last g).2).2) := by
  simp only [generateNextAnnounce64, hlast]

theorem generateNextAnnounce64_plain_step (r : RatioSpoof) (g : Rand) (last : Announce)
    (hlast : r.AnnounceHistory.Back = some last)
    (hRound : ∀ d u l p, r.BitTorrentClient.Round d u l p = (d, u, l)) :
    ∃ r1 g1 s, generateNextAnnounce64 r g = .ok (r1, g1) ∧ sameSetting r r1 ∧
      r1.AnnounceHistory = r.AnnounceHistory.pushValueHistory s ∧
      r1.AnnounceHistory.Back = some s ∧
      s.Downloaded = (downloadCandidate64 r last g).1 := by
  refine ⟨_, _, _, generateNextAnnounce64_ok r g last hlast, ⟨rfl, rfl, rfl, rfl⟩, rfl,
    addAnnounce64_Back _ _ _ _, ?_⟩
  simp only [hRound]

theorem generateNextAnnounceTimes64_succ (n : Nat) (r : RatioSpoof) (g : Rand) :
    generateNextAnnounceTimes64 (n + 1) r g =
      match generateNextAnnounceTimes64 n r g with
      | .error e => .error e
      | .ok (rn, gn) => generateNextAnnounce64 rn gn := by
  induction n generalizing r g with
  | zero =>
    simp only [generateNextAnnounceTimes64]
    cases generateNextAnnounce64 r g <;> rfl
  | succ k ih =>
    rw [generateNextAnnounceTimes64]
    cases h : generateNextAnnounce64 r g with
    | error e => simp only [generateNextAnnounceTimes64, h]
    | ok p =>
      obtain ⟨r1, g1⟩ := p
      simp only [ih r1 g1]
      conv_rhs => rw [generateNextAnnounceTimes64]
      simp only [h]

theorem generateNextAnnounceTimes64_invariant (P : RatioSpoof → Prop)
    (step : ∀ r g, P r → ∃ r1 g1, generateNextAnnounce64 r g = .ok (r1, g1) ∧ P r1) :
    ∀ (n : Nat) (r : RatioSpoof) (g : Rand), P r →
      ∃ rn gn, generateNextAnnounceTimes64 n r g = .ok (rn, gn) ∧ P rn := by
  intro n
  induction n with
  | zero => intro r g h; exact ⟨r, g, rfl, h⟩
  | succ k ih =>
    intro r g h
    obtain ⟨r1, g1, e1, h1⟩ := step r g h
    obtain ⟨rn, gn, en, hn⟩ := ih r1 g1 h1
    refine ⟨rn, gn, ?_, hn⟩
    rw [generateNextAnnounceTimes64, e1]
    exact en

theorem downloadCandidate64_le_total (r : RatioSpoof) (last : Announce) (g : Rand)
    (hT : r.TorrentInfo.TotalSize ≠ 0) (hle : last.Downloaded ≤ r.TorrentInfo.TotalSize) :
    (downloadCandidate64 r last g).1 ≤ r.TorrentInfo.TotalSize := by
  unfold downloadCandidate64
  simp only
  split_ifs with h
  · by_cases hs : r.Input.DownloadSpeed = 0
    · rw [hs, calculateNextTotalSizeByte64_zero]; exact hle
    · rw [calculateNextTotalSizeByte64_fst _ _ _ _ _ _ hs]
      split_ifs with hc
      · exact le_refl _
      · by_contra hgt
        exact hc ⟨hT, not_le.mp hgt⟩
  · exact le_refl _

theorem downloadCandidate64_ge_last (r : RatioSpoof) (last : Announce) (g : Rand)
    (hP : 0 < r.TorrentInfo.PieceSize) (hD : 0 ≤ r.Input.DownloadSpeed)
    (hI : 0 ≤ r.AnnounceInterval) (hle : last.Downloaded ≤ r.TorrentInfo.TotalSize)
    (hfit : candidateFits r.Input.DownloadSpeed last.Downloaded r.TorrentInfo.PieceSize
      r.AnnounceInterval (randomPieces g)) :
    last.Downloaded ≤ (downloadCandidate64 r last g).1 := by
  unfold downloadCandidate64
  simp only
  split_ifs with h
  · by_cases hs : r.Input.DownloadSpeed = 0
    · rw [hs, calculateNextTotalSizeByte64_zero]
    · rw [calculateNextTotalSizeByte64_fst _ _ _ _ _ _ hs,
        totalCandidate64_of_fits _ _ _ _ _ hfit]
      split_ifs with hc
      · exact le_of_lt h
      · have h1 : 0 ≤ r.Input.DownloadSpeed * r.AnnounceInterval := mul_nonneg hD hI
        have h2 : 0 ≤ r.TorrentInfo.PieceSize * randomPieces g :=
          mul_nonneg (le_of_lt hP) (le_trans (by decide) (randomPieces_ge g))
        linarith
  · exact hle

theorem candidateFits_of_bound (speed current piece seconds total k : Int)
    (hS : 0 ≤ speed) (hI : 0 ≤ seconds) (hP : 0 < piece) (hT : 0 < total)
    (hk1 : 1 ≤ k) (hk9 : k ≤ 9)
    (hlow : -int64Bound ≤ current) (hle : current ≤ total)
    (hb : total + speed * seconds + piece * 9 < int64Bound) :
    candidateFits speed current piece seconds k := by
  have h1 : 0 ≤ speed * seconds := mul_nonneg hS hI
  have h2 : 0 ≤ piece * k := mul_nonneg (le_of_lt hP) (le_trans (by decide) hk1)
  have h3 : piece * k ≤ piece * 9 := mul_le_mul_of_nonneg_left hk9 (le_of_lt hP)
  have h4 : (0 : Int) < int64Bound := by decide
  refine ⟨⟨?_, ?_⟩, ⟨?_, ?_⟩, ⟨?_, ?_⟩, ⟨?_, ?_⟩⟩ <;> linarith

/-! ## Claims on the growth of the candidates -/

/-- C9 (as amended). In a session with a non-empty history, positive upload
speed and piece size and non-negative announce interval, whatever the last
entry's `Downloaded` and the total size are, and provided no product or sum in
`Uploaded + UploadSpeed*AnnounceInterval + PieceSize*k` leaves the 64-bit
range, the upload candidate of `generateNextAnnounce` is that sum, with `k` the
jitter drawn after the download candidate and `k` in 1..9; it is strictly
greater than the last entry's `Uploaded`, it is not clamped by the total size,
and it is the second value handed to `Round`. -/
theorem uploadCandidate64_grows (r : RatioSpoof) (g : Rand) (last : Announce)
    (hlast : r.AnnounceHistory.Back = some last)
    (hU : 0 < r.Input.UploadSpeed) (hP : 0 < r.TorrentInfo.PieceSize)
    (hI : 0 ≤ r.AnnounceInterval)
    (hfit : candidateFits r.Input.UploadSpeed last.Uploaded r.TorrentInfo.PieceSize
      r.AnnounceInterval (randomPieces (downloadCandidate64 r last g).2)) :
    (uploadCandidate64 r last (downloadCandidate64 r last g).2).1
      = last.Uploaded + r.Input.UploadSpeed * r.AnnounceInterval
        + r.TorrentInfo.PieceSize * randomPieces (downloadCandidate64 r last g).2 ∧
    1 ≤ randomPieces (downloadCandidate64 r last g).2 ∧
    randomPieces (downloadCandidate64 r last g).2 ≤ 9 ∧
    last.Uploaded < (uploadCandidate64 r last (downloadCandidate64 r last g).2).1 ∧
    ∃ r1 g1 s, generateNextAnnounce64 r g = .ok (r1, g1) ∧
      r1.AnnounceHistory.Back = some s ∧
      (s.Downloaded, s.Uploaded, s.Left) =
        r.BitTorrentClient.Round (downloadCandidate64 r last g).1
          (uploadCandidate64 r last (downloadCandidate64 r last g).2).1
          (calculateBytesLeft64 (downloadCandidate64 r last g).1 r.TorrentInfo.TotalSize)
          r.TorrentInfo.PieceSize := by
  have hk := randomPieces_ge (downloadCandidate64 r last g).2
  have e : (uploadCandidate64 r last (downloadCandidate64 r last g).2).1
      = last.Uploaded + r.Input.UploadSpeed * r.AnnounceInterval
        + r.TorrentInfo.PieceSize * randomPieces (downloadCandidate64 r last g).2 := by
    unfold uploadCandidate64
    simp only
    rw [calculateNextTotalSizeByte64_fst _ _ _ _ _ _ (ne_of_gt hU),
      totalCandidate64_of_fits _ _ _ _ _ hfit]
    simp
  refine ⟨e, hk, randomPieces_le _, ?_, ?_⟩
  · rw [e]
    have h1 : 0 ≤ r.Input.UploadSpeed * r.AnnounceInterval := mul_nonneg (le_of_lt hU) hI
    have h2 : 0 < r.TorrentInfo.PieceSize * randomPieces (downloadCandidate64 r last g).2 :=
      mul_pos hP (lt_of_lt_of_le (by decide) hk)
    linarith
  · exact ⟨_, _, _, generateNextAnnounce64_ok r g last hlast, addAnnounce64_Back _ _ _ _, rfl⟩

/-- C9 witness: the completed sample session (upload speed 50, interval 10,
piece size 10, jitter 5): the upload candidate is 70 + 500 + 50. -/
theorem uploadCandidate64_grows_witness :
    (uploadCandidate64 completeSession
        { Count := 1, Downloaded := 1000, Uploaded := 70, Left := 0 }
        (downloadCandidate64 completeSession
          { Count := 1, Downloaded := 1000, Uploaded := 70, Left := 0 } fixedRand).2).1
      = 620 ∧
    (70 : Int) < (uploadCandidate64 completeSession
        { Count := 1, Downloaded := 1000, Uploaded := 70, Left := 0 }
        (downloadCandidate64 completeSession
          { Count := 1, Downloaded := 1000, Uploaded := 70, Left := 0 } fixedRand).2).1 :=
  ⟨by decide,
   (uploadCandidate64_grows completeSession fixedRand
      { Count := 1, Downloaded := 1000, Uploaded := 70, Left := 0 } rfl
      (by decide) (by decide) (by decide) (by decide)).2.2.2.1⟩

/-- C9 counterexample: with upload speed 102400, piece size 10, a last entry
with 70 uploaded and the announce interval `2^47` that a tracker response has
set, the product wraps around and the upload candidate is
`70 - 7*2^59 + 50`, below the previous 70. -/
theorem uploadCandidate64_grows_wraps :
    longIntervalSession.AnnounceHistory.Back
      = some { Count := 1, Downloaded := 1000, Uploaded := 70, Left := 0 } ∧
    0 < longIntervalSession.Input.UploadSpeed ∧
    0 < longIntervalSession.TorrentInfo.PieceSize ∧
    0 ≤ longIntervalSession.AnnounceInterval ∧
    inInt64 longIntervalSession.Input.UploadSpeed ∧
    inInt64 longIntervalSession.AnnounceInterval ∧
    (uploadCandidate64 longIntervalSession
        { Count := 1, Downloaded := 1000, Uploaded := 70, Left := 0 }
        (downloadCandidate64 longIntervalSession
          { Count := 1, Downloaded := 1000, Uploaded := 70, Left := 0 } fixedRand).2).1
      = -4035225266123964296 ∧
    ¬ ((70 : Int) < (uploadCandidate64 longIntervalSession
        { Count := 1, Downloaded := 1000, Uploaded := 70, Left := 0 }
        (downloadCandidate64 longIntervalSession
          { Count := 1, Downloaded := 1000, Uploaded := 70, Left := 0 } fixedRand).2).1) ∧
    (fireAnnounce
        { completeSession with
          Tracker :=
            { answers := fun _ =>
                .resp (some { Interval := 140737488355328, Seeders := 5, Leechers := 3 })
              sent := [] } } true).toOption.map (fun p => p.1.AnnounceInterval)
      = some longIntervalSession.AnnounceInterval := by
  decide

/-- C10 (as amended). In a session with a non-empty history, positive total
size and piece size, non-negative download speed and announce interval, and a
last entry with `Downloaded ≤ TotalSize`, provided no product or sum in
`Downloaded + DownloadSpeed*AnnounceInterval + PieceSize*k` leaves the 64-bit
range, the download candidate of `generateNextAnnounce` is at least the last
entry's `Downloaded`.  With a `Round` that returns its arguments unchanged, a
representable last `Downloaded` and
`TotalSize + DownloadSpeed*AnnounceInterval + 9*PieceSize < 2^63` (so that no
candidate of the run leaves the range), along any run of `generateNextAnnounce`
calls each appended entry has `Downloaded` at least that of the entry before
it. -/
theorem downloadCandidate64_monotone (r : RatioSpoof) (g : Rand) (last : Announce)
    (hlast : r.AnnounceHistory.Back = some last)
    (hT : 0 < r.TorrentInfo.TotalSize) (hP : 0 < r.TorrentInfo.PieceSize)
    (hD : 0 ≤ r.Input.DownloadSpeed) (hI : 0 ≤ r.AnnounceInterval)
    (hle : last.Downloaded ≤ r.TorrentInfo.TotalSize) :
    (candidateFits r.Input.DownloadSpeed last.Downloaded r.TorrentInfo.PieceSize
        r.AnnounceInterval (randomPieces g) →
      last.Downloaded ≤ (downloadCandidate64 r last g).1) ∧
    ((∀ d u l p, r.BitTorrentClient.Round d u l p = (d, u, l)) →
      -int64Bound ≤ last.Downloaded →
      r.TorrentInfo.TotalSize + r.Input.DownloadSpeed * r.AnnounceInterval
        + r.TorrentInfo.PieceSize * 9 < int64Bound →
      ∀ (n : Nat) (g0 : Rand), ∃ rn gn s rm gm t,
        generateNextAnnounceTimes64 n r g0 = .ok (rn, gn) ∧
        rn.AnnounceHistory.Back = some s ∧
        generateNextAnnounce64 rn gn = .ok (rm, gm) ∧
        generateNextAnnounceTimes64 (n + 1) r g0 = .ok (rm, gm) ∧
        rm.AnnounceHistory.Back = some t ∧
        s.Downloaded ≤ t.Downloaded) := by
  refine ⟨downloadCandidate64_ge_last r last g hP hD hI hle, ?_⟩
  intro hRound hlow hb n g0
  have fit : ∀ (r1 : RatioSpoof) (l : Announce) (g1 : Rand), sameSetting r r1 →
      l.Downloaded ≤ r.TorrentInfo.TotalSize → last.Downloaded ≤ l.Downloaded →
      candidateFits r1.Input.DownloadSpeed l.Downloaded r1.TorrentInfo.PieceSize
        r1.AnnounceInterval (randomPieces g1) := by
    intro r1 l g1 hs hl1 hl2
    obtain ⟨hti, hin, _, hai⟩ := hs
    rw [hti, hin, hai]
    exact candidateFits_of_bound _ _ _ _ r.TorrentInfo.TotalSize _ hD hI hP hT
      (randomPieces_ge g1) (randomPieces_le g1) (le_trans hlow hl2) hl1 hb
  obtain ⟨rn, gn, e, hs, s, hb1, hsle, hsge⟩ :=
    generateNextAnnounceTimes64_invariant
      (fun r1 => sameSetting r r1 ∧
        ∃ l, r1.AnnounceHistory.Back = some l ∧ l.Downloaded ≤ r.TorrentInfo.TotalSize ∧
          last.Downloaded ≤ l.Downloaded)
      (fun r1 g1 h => by
        obtain ⟨hs, l, hbk, hl1, hl2⟩ := h
        have hf := fit r1 l g1 hs hl1 hl2
        obtain ⟨hti, hin, hcl, hai⟩ := hs
        obtain ⟨r2, g2, s, e, hs2, _, hb2, hd⟩ :=
          generateNextAnnounce64_plain_step r1 g1 l hbk (by rw [hcl]; exact hRound)
        refine ⟨r2, g2, e, sameSetting_trans r r1 r2 ⟨hti, hin, hcl, hai⟩ hs2, s, hb2, ?_, ?_⟩
        · rw [hd, ← hti]
          exact downloadCandidate64_le_total r1 l g1 (by rw [hti]; exact ne_of_gt hT)
            (by rw [hti]; exact hl1)
        · rw [hd]
          exact le_trans hl2 (downloadCandidate64_ge_last r1 l g1 (by rw [hti]; exact hP)
            (by rw [hin]; exact hD) (by rw [hai]; exact hI) (by rw [hti]; exact hl1) hf))
      n r g0 ⟨⟨rfl, rfl, rfl, rfl⟩, last, hlast, hle, le_refl _⟩
  have hf := fit rn s gn hs hsle hsge
  obtain ⟨hti, hin, hcl, hai⟩ := hs
  obtain ⟨rm, gm, t, e2, _, _, hb2, hd⟩ :=
    generateNextAnnounce64_plain_step rn gn s hb1 (by rw [hcl]; exact hRound)
  refine ⟨rn, gn, s, rm, gm, t, e, hb1, e2, ?_, hb2, ?_⟩
  · rw [generateNextAnnounceTimes64_succ, e]
    exact e2
  · rw [hd]
    exact downloadCandidate64_ge_last rn s gn (by rw [hti]; exact hP) (by rw [hin]; exact hD)
      (by rw [hai]; exact hI) (by rw [hti]; exact hsle) hf

/-- C10 witness: the sample session, where the candidate 0 + 1000 + 50 fits and
is clamped to 1000, and three further steps. -/
theorem downloadCandidate64_monotone_witness :
    (downloadCandidate64 sampleSession
      { Count := 1, Downloaded := 0, Uploaded := 0, Left := 1000 } fixedRand).1 = 1000 ∧
    (0 : Int) ≤ (downloadCandidate64 sampleSession
      { Count := 1, Downloaded := 0, Uploaded := 0, Left := 1000 } fixedRand).1 ∧
    ∃ rn gn s rm gm t,
      generateNextAnnounceTimes64 3 sampleSession fixedRand = .ok (rn, gn) ∧
      rn.AnnounceHistory.Back = some s ∧
      generateNextAnnounce64 rn gn = .ok (rm, gm) ∧
      generateNextAnnounceTimes64 (3 + 1) sampleSession fixedRand = .ok (rm, gm) ∧
      rm.AnnounceHistory.Back = some t ∧
      s.Downloaded ≤ t.Downloaded :=
  ⟨by decide,
   (downloadCandidate64_monotone sampleSession fixedRand
      { Count := 1, Downloaded := 0, Uploaded := 0, Left := 1000 } rfl
      (by decide) (by decide) (by decide) (by decide) (by decide)).1 (by decide),
   (downloadCandidate64_monotone sampleSession fixedRand
      { Count := 1, Downloaded := 0, Uploaded := 0, Left := 1000 } rfl
      (by decide) (by decide) (by decide) (by decide) (by decide)).2
      (fun _ _ _ _ => rfl) (by decide) (by decide) 3 fixedRand⟩

/-- C10 counterexample, two inputs.  With total size 100, piece size 10,
download speed 100, interval 10 and a last entry reporting 150 bytes downloaded
(the history `firstAnnounce` builds from `InitialDownloaded = 150`), the
download candidate is 100, below the previous 150.  With total size 1000, piece
size 10, download speed 102400, a last entry with 0 downloaded and the announce
interval `2^47`, the product wraps around and the download candidate is
`-7*2^59 + 50`, below the previous 0. -/
theorem downloadCandidate64_monotone_fails :
    (overfullDownloading.AnnounceHistory.Back
        = some { Count := 1, Downloaded := 150, Uploaded := 0, Left := -50 } ∧
      0 < overfullDownloading.TorrentInfo.TotalSize ∧
      0 < overfullDownloading.TorrentInfo.PieceSize ∧
      0 ≤ overfullDownloading.Input.DownloadSpeed ∧
      0 ≤ overfullDownloading.AnnounceInterval ∧
      (downloadCandidate64 overfullDownloading
        { Count := 1, Downloaded := 150, Uploaded := 0, Left := -50 } fixedRand).1 = 100 ∧
      ¬ ((150 : Int) ≤ (downloadCandidate64 overfullDownloading
        { Count := 1, Downloaded := 150, Uploaded := 0, Left := -50 } fixedRand).1) ∧
      (firstAnnounce (NewRatioSpoofState plainClient { TotalSize := 100, PieceSize := 10 }
          steadyTracker
          { InitialDownloaded := 150, InitialUploaded := 0, DownloadSpeed := 100,
            UploadSpeed := 0, Port := 8999 })).toOption.map (fun r => r.AnnounceHistory)
        = some overfullDownloading.AnnounceHistory) ∧
    (longIntervalDownloading.AnnounceHistory.Back
        = some { Count := 1, Downloaded := 0, Uploaded := 0, Left := 1000 } ∧
      0 < longIntervalDownloading.TorrentInfo.TotalSize ∧
      0 < longIntervalDownloading.TorrentInfo.PieceSize ∧
      0 ≤ longIntervalDownloading.Input.DownloadSpeed ∧
      0 ≤ longIntervalDownloading.AnnounceInterval ∧
      inInt64 longIntervalDownloading.Input.DownloadSpeed ∧
      inInt64 longIntervalDownloading.AnnounceInterval ∧
      (0 : Int) ≤ longIntervalDownloading.TorrentInfo.TotalSize ∧
      (downloadCandidate64 longIntervalDownloading
        { Count := 1, Downloaded := 0, Uploaded := 0, Left := 1000 } fixedRand).1
        = -4035225266123964366 ∧
      ¬ ((0 : Int) ≤ (downloadCandidate64 longIntervalDownloading
        { Count := 1, Downloaded := 0, Uploaded := 0, Left := 1000 } fixedRand).1)) := by
  decide

end Ratiospoof
